import Mathlib

/-!
Verification of the statistics/clipping/mode-estimation core of this
repository (lib/statistics.c) against its natural-language specification.

The C code is shallowly embedded over exact arithmetic: the numeric element
types (integers and IEEE floats) are modelled by `ℚ` (and `ℤ` for the
integer-typed instantiations of the per-type macros), datasets
(`gal_data_t` buffers) by lists, and the per-type blank sentinel by
`Option` (`none` = blank).  C casts from `double` to integer types are
modelled by `Int.floor`/`Int.toNat` (all casted values in the embedded
paths are nonnegative, where truncation and floor agree).  A NaN output
field is modelled by `none`.
-/

set_option allowUnsafeReducibility true in
attribute [semireducible] Rat.add Rat.sub Rat.mul Rat.inv Rat.div Rat.neg Rat.normalize

namespace GnuastroStats

/-- Insertion of one element into a sorted list; `sortIncreasing` below is
the model of `gal_statistics_sort_increasing` (which calls the libc
`qsort` with the per-type increasing comparators `gal_qsort_TYPE_i`).  Any
comparison sort is a faithful model: tie order is irrelevant to all
consumers in `statistics.c`. -/
def insertSorted {K : Type} [LinearOrder K] (x : K) : List K → List K
  | [] => [x]
  | y :: ys => if x ≤ y then x :: y :: ys else y :: insertSorted x ys

/-- Model of `gal_statistics_sort_increasing` (see `insertSorted`). -/
def sortIncreasing {K : Type} [LinearOrder K] (l : List K) : List K :=
  l.foldr insertSorted []

/-- Nondecreasing-run check: the increasing-direction scan of macro
`IS_SORTED` (break on a strictly decreasing adjacent pair). -/
def isSortedI {K : Type} [LinearOrder K] : List K → Bool
  | [] => true
  | [_] => true
  | a :: b :: t => decide (a ≤ b) && isSortedI (b :: t)

/-- Nonincreasing-run check: the decreasing-direction scan of macro
`IS_SORTED` (break on a strictly increasing adjacent pair). -/
def isSortedD {K : Type} [LinearOrder K] : List K → Bool
  | [] => true
  | [_] => true
  | a :: b :: t => decide (b ≤ a) && isSortedD (b :: t)

/-- Model of `gal_statistics_is_sorted` on a one-dimensional buffer:
0 = `STATISTICS_IS_SORTED_NOT`, 1 = `..._INCREASING`, 2 = `..._DECREASING`.
A 0- or 1-element dataset is reported as increasing; otherwise the first
pair selects the scan direction (macro `IS_SORTED`). -/
def isSortedClass {K : Type} [LinearOrder K] (l : List K) : ℕ :=
  match l with
  | [] => 1
  | [_] => 1
  | a :: b :: t =>
      if a ≤ b then (if isSortedI (a :: b :: t) then 1 else 0)
      else (if isSortedD (a :: b :: t) then 2 else 0)

/-- Model of `gal_statistics_no_blank_sorted`: remove the blank elements
(`gal_blank_remove`), then, exactly as the C does, keep the array as it is
when `gal_statistics_is_sorted` reports it sorted (in either direction),
and otherwise sort it increasing.  The borrowed/owned (`inplace`)
distinction only concerns allocation and is not observable in the value. -/
def gal_statistics_no_blank_sorted {K : Type} [LinearOrder K]
    (input : List (Option K)) : List K :=
  let noblank := input.filterMap id
  if isSortedClass noblank ≠ 0 then noblank else sortIncreasing noblank

/-- The `GAL_DATA_FLAG_SORTED_I` flag of the view produced by
`gal_statistics_no_blank_sorted`: set unless the input was kept as an
already-decreasing array. -/
def nbsIncreasing {K : Type} [LinearOrder K] (input : List (Option K)) : Bool :=
  isSortedClass (gal_statistics_no_blank_sorted input) ≠ 2

/-- Model of `statistics_median_in_sorted_no_blank` (macro `MED_IN_SORTED`)
for the two floating-point element types: `a[n/2]` for odd sizes, else
`(a[n/2]+a[n/2-1])/2`, computed in the element type. -/
def medSorted {K : Type} [LinearOrderedField K] (l : List K) : K :=
  if l.length % 2 = 1 then l.getD (l.length / 2) 0
  else (l.getD (l.length / 2) 0 + l.getD (l.length / 2 - 1) 0) / 2

/-- Model of `statistics_median_in_sorted_no_blank` (macro `MED_IN_SORTED`)
instantiated at the integer element types: the midpoint average
`(a[n/2]+a[n/2-1])/2` is computed with C integer division (all values fed
to it in the theorems below are nonnegative, where every integer division
convention agrees with `Int` division). -/
def medSortedInt (l : List ℤ) : ℤ :=
  if l.length % 2 = 1 then l.getD (l.length / 2) 0
  else (l.getD (l.length / 2) 0 + l.getD (l.length / 2 - 1) 0) / 2

/-- Model of `gal_statistics_median` (float element types): build the
no-blank sorted view, then take its median; a zero-sized view yields a
blank (`none`). -/
def gal_statistics_median (input : List (Option ℚ)) : Option ℚ :=
  let nbs := gal_statistics_no_blank_sorted input
  if nbs.length ≠ 0 then some (medSorted nbs) else none

/-- Model of `gal_statistics_median` at integer element types (the output
is produced in the same type as the input). -/
def gal_statistics_median_int (input : List (Option ℤ)) : Option ℤ :=
  let nbs := gal_statistics_no_blank_sorted input
  if nbs.length ≠ 0 then some (medSortedInt nbs) else none

/-- Model of `statistics_mad_in_sorted_no_blank`: subtract the median,
take absolute values, re-sort, and take the median of the result.  (The
unsigned-type widening in the C is only overflow protection and is exact
here.) -/
def madSorted {K : Type} [LinearOrderedField K] (l : List K) : K :=
  medSorted (sortIncreasing (l.map (fun x => |x - medSorted l|)))

/-- Core index computation of `gal_statistics_quantile_index` for
`size > 0`: `floatindex = (size-1)*quantile`; the `(int)`/`size_t` casts
truncate, which for these nonnegative values is `Int.floor`. -/
def quantileIndexCore (size : ℕ) (quantile : ℚ) : ℕ :=
  let floatindex : ℚ := ((size - 1 : ℕ) : ℚ) * quantile
  if floatindex - (⌊floatindex⌋ : ℚ) > 1/2 then (⌊floatindex + 1⌋).toNat
  else (⌊floatindex⌋).toNat

/-- Model of `gal_statistics_quantile_index`: `none` models the
`GAL_BLANK_SIZE_T` return for a zero-sized input.  (For a quantile outside
`[0,1]` the C program aborts; all statements below keep the quantile in
range.) -/
def gal_statistics_quantile_index (size : ℕ) (quantile : ℚ) : Option ℕ :=
  if size = 0 then none else some (quantileIndexCore size quantile)

/-- CLAIM C7 counterexample: on an integer element type, the even-size
median of `[1,2,3,4]` is computed by integer division as `2`, not the
claimed floating-point `2.5`. -/
theorem claim7_counterexample :
    gal_statistics_median_int [some 1, some 2, some 3, some 4] = some 2 ∧
      ((2 : ℚ) ≠ 5/2) := by
  constructor
  · decide
  · norm_num

/-- CLAIM C7 (amended): the median of `[1,2,3,4,5]` is `3` for both the
floating-point and the integer instantiations; the even-size median of
`[1,2,3,4]` is the average of the two middle elements computed in the
element type, hence `5/2` for floating-point element types but `2` for
integer element types (the result is returned in the input's type, not as
a floating-point scalar). -/
theorem claim7_amended :
    gal_statistics_median [some 1, some 2, some 3, some 4, some 5] = some 3 ∧
      gal_statistics_median [some 1, some 2, some 3, some 4] = some (5/2) ∧
      gal_statistics_median_int [some 1, some 2, some 3, some 4, some 5] = some 3 ∧
      gal_statistics_median_int [some 1, some 2, some 3, some 4] = some 2 := by
  refine ⟨by decide, by decide, by decide, by decide⟩

/-- Model of `gal_statistics_quantile`: the element of the no-blank sorted
view at the quantile's index; on a decreasing view the complementary
quantile `1-q` is used.  `none` models a blank output (empty view). -/
def gal_statistics_quantile (input : List (Option ℚ)) (quantile : ℚ) : Option ℚ :=
  let nbs := gal_statistics_no_blank_sorted input
  if nbs.length ≠ 0 then
    match gal_statistics_quantile_index nbs.length
        (if nbsIncreasing input then quantile else 1 - quantile) with
    | none => none
    | some index => some (nbs.getD index 0)
  else none

/-- The scan of macro `STATS_QFUNC_IND` (increasing branch), starting at
the second element (`idx = 1`) with the first element as reference:
at the first element exceeding the probe `v` return its index, moved one
back when the previous element is strictly closer; `none` when the scan
exhausts the array (the C then leaves `index` at `GAL_BLANK_SIZE_T`). -/
def qfuncScanInc (v : ℚ) : ℚ → List ℚ → ℕ → Option ℕ
  | _, [], _ => none
  | prev, x :: rest, idx =>
      if x > v then some (if v - prev < x - v then idx - 1 else idx)
      else qfuncScanInc v x rest (idx + 1)

/-- The scan of macro `STATS_QFUNC_IND` (decreasing branch). -/
def qfuncScanDec (v : ℚ) : ℚ → List ℚ → ℕ → Option ℕ
  | _, [], _ => none
  | prev, x :: rest, idx =>
      if x < v then some (if prev - v < v - x then idx - 1 else idx)
      else qfuncScanDec v x rest (idx + 1)

/-- Model of `gal_statistics_quantile_function_index`: index of the
element closest to `value` found by the forward scan; `none` models
`GAL_BLANK_SIZE_T` (probe below an increasing view's first element /
above a decreasing view's first element, scan exhausted, or empty view). -/
def gal_statistics_quantile_function_index (input : List (Option ℚ))
    (value : ℚ) : Option ℕ :=
  let nbs := gal_statistics_no_blank_sorted input
  match nbs with
  | [] => none
  | r :: rest =>
      if nbsIncreasing input then
        (if value ≥ r then qfuncScanInc value r rest 1 else none)
      else
        (if value ≤ r then qfuncScanDec value r rest 1 else none)

/-- Output values of `gal_statistics_quantile_function`: a finite
probability, or the infinities it returns for out-of-range probes. -/
inductive QfuncVal where
  | neginf : QfuncVal
  | posinf : QfuncVal
  | val : ℚ → QfuncVal
deriving DecidableEq

/-- Model of `gal_statistics_quantile_function`: `index/(size-1)` when the
scan finds an index; otherwise `-∞`/`+∞` according to the side on which
the probe left the range (macro `STATS_QFUNC`, which detects the
direction from the first two elements); `none` is the blank output for an
empty view.  (As in the C, the direction test reads the second element,
so it is only meaningful for views with at least two elements.) -/
def gal_statistics_quantile_function (input : List (Option ℚ))
    (value : ℚ) : Option QfuncVal :=
  let nbs := gal_statistics_no_blank_sorted input
  if nbs.length ≠ 0 then
    match gal_statistics_quantile_function_index input value with
    | some ind => some (QfuncVal.val ((ind : ℚ) / ((nbs.length - 1 : ℕ) : ℚ)))
    | none =>
        if nbs.getD 0 0 < nbs.getD 1 0 then
          some (if value < nbs.getD 0 0 then QfuncVal.neginf else QfuncVal.posinf)
        else
          some (if value > nbs.getD 0 0 then QfuncVal.posinf else QfuncVal.neginf)
  else none

/-- CLAIM C2: for every nonzero size and quantile in `[0,1]`,
`gal_statistics_quantile_index` returns the ceiling of
`floatindex = (size-1)*q` when its fractional part exceeds `1/2` and its
floor otherwise (so a fractional part of exactly `1/2` rounds down). -/
theorem claim2_quantile_index_rounds (size : ℕ) (q : ℚ)
    (h1 : 1 ≤ size) (hq0 : 0 ≤ q) (hq1 : q ≤ 1) :
    gal_statistics_quantile_index size q =
      some (if 1/2 < Int.fract (((size - 1 : ℕ) : ℚ) * q)
            then (⌈((size - 1 : ℕ) : ℚ) * q⌉).toNat
            else (⌊((size - 1 : ℕ) : ℚ) * q⌋).toNat) := by
  have hsz : ¬ (size = 0) := by omega
  unfold gal_statistics_quantile_index quantileIndexCore
  rw [if_neg hsz]
  set fi : ℚ := ((size - 1 : ℕ) : ℚ) * q with hfi
  have hfr : Int.fract fi = fi - (⌊fi⌋ : ℚ) := Int.self_sub_floor fi ▸ rfl
  congr 1
  by_cases hc : fi - (⌊fi⌋ : ℚ) > 1/2
  · rw [if_pos hc, if_pos (by rw [hfr]; exact hc)]
    have hlt : (⌊fi⌋ : ℚ) < fi := by linarith
    have hceil : ⌈fi⌉ = ⌊fi⌋ + 1 := by
      have hub : ⌈fi⌉ ≤ ⌊fi⌋ + 1 := Int.ceil_le_floor_add_one fi
      have hlb : ⌊fi⌋ + 1 ≤ ⌈fi⌉ := by
        have : (⌊fi⌋ : ℚ) < (⌈fi⌉ : ℚ) := lt_of_lt_of_le hlt (Int.le_ceil fi)
        exact_mod_cast this
      omega
    rw [hceil, Int.floor_add_one]
  · rw [if_neg hc, if_neg (by rw [hfr]; exact hc)]

/-- Witness for C2 at `size = 4`, `q = 1/2`: the fractional part of
`floatindex = 3/2` is exactly `1/2`, and the tie rounds down to index 1. -/
theorem claim2_witness :
    1 ≤ 4 ∧ (0 : ℚ) ≤ 1/2 ∧ (1/2 : ℚ) ≤ 1 ∧
      gal_statistics_quantile_index 4 (1/2) = some 1 :=
  ⟨by norm_num, by norm_num, by norm_num,
    (claim2_quantile_index_rounds 4 (1/2) (by norm_num) (by norm_num)
      (by norm_num)).trans (by decide)⟩

/-- CLAIM C8 counterexample: on the strictly increasing two-element view
`[0,1]` with `q = 3/5` (strictly inside `(0,1)`), the quantile is the last
element `1`, and the quantile function of that value is `+∞`, not the
finite value `quantile_index(2,3/5)/(2-1) = 1` the claim asserts: the
forward scan never finds an element exceeding the probe, so the probe is
treated as out of range. -/
theorem claim8_counterexample :
    gal_statistics_quantile [some 0, some 1] (3/5) = some 1 ∧
      gal_statistics_quantile_function [some 0, some 1] 1 = some QfuncVal.posinf ∧
      QfuncVal.posinf ≠
        QfuncVal.val ((quantileIndexCore 2 (3/5) : ℚ) / ((2 - 1 : ℕ) : ℚ)) := by
  refine ⟨by decide, by decide, by decide⟩

/-- One measured round of `statistics_clip`: the center and spread
computed on the current sub-range, and that sub-range's size. -/
structure ClipRound (K : Type) where
  center : K
  spread : K
  size : ℕ
deriving DecidableEq

/-- State of the `statistics_clip` loop at exit: the measured rounds, how
the loop ended (`broke` = the in-loop convergence `break`), the remaining
sub-range (the `size`/`start` variables, giving `NUMBER_USED`), the range
the `nbs` dataset still designates (`nbs->array`/`nbs->size` are only
reassigned at the top of an executed round, so on exit `nbs` is the range
measured in the last executed round — the range
`statistics_clip_stats_extra` is later fed), and the final `num`. -/
structure ClipState (K : Type) where
  rounds : List (ClipRound K)
  broke : Bool
  finalList : List K
  measured : List K
  num : ℕ
deriving DecidableEq

/-- The `break` test of `statistics_clip` (lines 2774-2780): stop when the
spread is zero, or, when operating by tolerance and at least one round has
completed, when `(oldspread - spread)/spread < param` (not
absolute-valued). -/
def stopAt {K : Type} [LinearOrderedField K] (bytol : Bool) (param oldspread spread : K)
    (num : ℕ) : Bool :=
  decide (spread = 0) ||
    (bytol && decide (0 < num) && decide ((oldspread - spread) / spread < param))

/-- Macro `CLIPALL`: drop out-of-range elements from the two ends of the
sorted sub-range; the kept range is delimited by the first element
exceeding `center - multip*spread` and the last element below
`center + multip*spread` (directions swapped on a decreasing view). -/
def clipall {K : Type} [LinearOrderedField K] (inc : Bool) (center spread multip : K)
    (l : List K) : List K :=
  let lo := center - multip * spread
  let hi := center + multip * spread
  if inc then
    ((l.dropWhile (fun x => decide (x ≤ lo))).reverse.dropWhile
      (fun x => decide (hi ≤ x))).reverse
  else
    ((l.dropWhile (fun x => decide (hi ≤ x))).reverse.dropWhile
      (fun x => decide (x ≤ lo))).reverse

/-- The `while(num<maxnum && size)` loop of `statistics_clip`, generic in
the center function `cf` (the median) and spread function `sf` (the
standard deviation for sigma-clipping, the MAD for MAD-clipping; both
instantiations share this one procedure, selected by `sig1_mad0`).
`fuel = maxnum - num` counts the remaining rounds. -/
def clipGo {K : Type} [LinearOrderedField K] (cf sf : List K → K) (multip param : K)
    (bytol inc : Bool) : ℕ → List K → ℕ → K → List K → ClipState K
  | 0, l, num, _, meas => ⟨[], false, l, meas, num⟩
  | fuel + 1, l, num, oldspread, meas =>
      if l.length = 0 then ⟨[], false, l, meas, num⟩
      else
        let center := cf l
        let spread := sf l
        if stopAt bytol param oldspread spread num then
          ⟨[⟨center, spread, l.length⟩], true, l, l, num⟩
        else
          let rest := clipGo cf sf multip param bytol inc fuel
              (clipall inc center spread multip l) (num + 1) spread l
          ⟨⟨center, spread, l.length⟩ :: rest.rounds, rest.broke, rest.finalList,
            rest.measured, rest.num⟩

/-- The clip loop started as `statistics_clip` starts it: `num = 0`,
`oldspread` uninitialized (the C leaves it NaN; it is only read after the
first round, so its initial value is immaterial — we use 0), and `nbs`
designating the full view.  `bytol = (param < 1.0)`. -/
def clipTrace {K : Type} [LinearOrderedField K] (cf sf : List K → K) (multip param : K)
    (maxnum : ℕ) (inc : Bool) (l : List K) : ClipState K :=
  clipGo cf sf multip param (decide (param < 1)) inc maxnum l 0 0 l

/-- Spread measured in round `k` of a clip trace. -/
def roundsSpread {K : Type} [LinearOrderedField K] (t : ClipState K) (k : ℕ) : K :=
  (t.rounds.getD k ⟨0, 0, 0⟩).spread

/-- The clip output record: the `GAL_STATISTICS_CLIP_OUTCOL_*` columns of
the returned dataset (`none` models NaN), the returned dataset's `status`
field, and the per-round progress rows `(round, number)` printed when
`quiet` is off.  (The column layout comes from the public header
`gnuastro/statistics.h`, which is not under `src/`.) -/
structure ClipOut (K : Type) where
  median : Option K
  number_used : Option ℕ
  std : Option K
  mad : Option K
  mean : Option K
  number_clips : Option ℕ
  status : ℕ
  reported : List (ℕ × ℕ)
deriving DecidableEq

/-- The optional extra statistics requested through the `extrastats`
byte: the `GAL_STATISTICS_CLIP_OUTCOL_OPTIONAL_STD/MAD/MEAN` flag bits of
the public header, modelled as three Booleans. -/
structure ClipExtra where
  std : Bool
  mad : Bool
  mean : Bool
deriving DecidableEq

/-- Model of `gal_statistics_mean`: the sum divided by the count, blank
(`none`) on an empty input. -/
def gal_statistics_mean (l : List ℚ) : Option ℚ :=
  if l.length = 0 then none else some (l.sum / (l.length : ℚ))

/-- Model of `statistics_clip_stats_extra`: each requested statistic is
recomputed on the range `nbs` still designates, but only when its column
is still NaN (the `!(isnan(oa[..]) && i..)` guards — e.g. MAD-clipping
already produced the MAD).  Returns the updated `(mean, std, mad)`
columns.  The statistic kernels are parameters: `meanF`/`stdF`/`madF`
model `gal_statistics_mean`/`gal_statistics_std` (a real-valued square
root)/`gal_statistics_mad`, each blank on an empty range. -/
def statistics_clip_stats_extra {K : Type} (meanF stdF madF : List K → Option K)
    (nbs : List K) (extrastats : ClipExtra) (mean0 std0 mad0 : Option K) :
    Option K × Option K × Option K :=
  let imean := extrastats.mean && mean0.isNone
  let istd := extrastats.std && std0.isNone
  let imad := extrastats.mad && mad0.isNone
  (if imean then meanF nbs else mean0,
   if istd then stdF nbs else std0,
   if imad then madF nbs else mad0)

/-- Model of `statistics_clip`, generic in the center function `cf` (the
median) and spread function `sf` (standard deviation for sigma-clipping,
MAD for MAD-clipping: the `sig1_mad0` flag selects the output column),
and in the three extra-statistic kernels (see
`statistics_clip_stats_extra`).  `maxconv` is the public-header constant
`GAL_STATISTICS_CLIP_MAX_CONVERGE` (the fixed upper bound on tolerance
rounds), passed as a parameter.  The sanity aborts of
`statistics_clip_prepare` (`multip > 0`, `param > 0`, integral `param`
when `param >= 1`) appear as hypotheses of the theorems below.  On exit,
the median/spread columns carry the values measured in the last executed
round, while `NUMBER_USED` carries the size left after that round's clip;
after a tolerance run that never converged, or when the range became
empty, every output column (the `NUMBER_CLIPS` column included) is
overwritten with NaN.  `statistics_clip_stats_extra` then runs on the
range `nbs` still designates (the last measured range), refilling any
requested optional column that is still NaN. -/
def statistics_clip {K : Type} [LinearOrderedField K] [FloorRing K]
    (cf sf : List K → K) (meanF stdF madF : List K → Option K) (sig1_mad0 : Bool)
    (multip param : K) (maxconv : ℕ) (extrastats : ClipExtra)
    (input : List (Option K)) : ClipOut K :=
  let nbs := gal_statistics_no_blank_sorted input
  let maxnum : ℕ := if 1 ≤ param then (⌊param⌋).toNat else maxconv
  if nbs.length = 0 then
    let e := statistics_clip_stats_extra meanF stdF madF nbs extrastats none none none
    ⟨none, none, e.2.1, e.2.2, e.1, none, 0, []⟩
  else if nbs.length = 1 then
    let std0 : Option K := if sig1_mad0 then some 0 else none
    let mad0 : Option K := if sig1_mad0 then none else some 0
    let e := statistics_clip_stats_extra meanF stdF madF nbs extrastats none std0 mad0
    ⟨some (nbs.getD 0 0), some 1, e.2.1, e.2.2, e.1, none, 0, [(1, 1)]⟩
  else
    let t := clipTrace cf sf multip param maxnum (nbsIncreasing input) nbs
    let reported := t.rounds.enum.map (fun p => (p.1 + 1, p.2.size))
    let out0 : ClipOut K :=
      if t.finalList.length = 0 ∨ (param < 1 ∧ t.num = maxnum) then
        ⟨none, none, none, none, none, none, t.num, reported⟩
      else
        ⟨(t.rounds.getLast?).map (fun r => r.center), some t.finalList.length,
          (if sig1_mad0 then (t.rounds.getLast?).map (fun r => r.spread) else none),
          (if sig1_mad0 then none else (t.rounds.getLast?).map (fun r => r.spread)),
          none, some t.num, t.num, reported⟩
    let e := statistics_clip_stats_extra meanF stdF madF t.measured extrastats
        out0.mean out0.std out0.mad
    ⟨out0.median, out0.number_used, e.2.1, e.2.2, e.1, out0.number_clips,
      out0.status, out0.reported⟩

/-- Model of `gal_statistics_clip_mad`: `statistics_clip` with the median
as center, the MAD as spread (`sig1_mad0 = 0`), and the concrete mean and
MAD extra-statistic kernels; the STD extra statistic is a real-valued
square root and stays a parameter.  (`gal_statistics_clip_sigma` is the
same procedure with the standard deviation as `sf` and `sig1_mad0 = 1`;
the clip theorems below hold for every choice of the function parameters
and so cover both instantiations.) -/
def gal_statistics_clip_mad (stdF : List ℚ → Option ℚ) (multip param : ℚ)
    (maxconv : ℕ) (extrastats : ClipExtra) (input : List (Option ℚ)) : ClipOut ℚ :=
  statistics_clip medSorted madSorted gal_statistics_mean stdF
    (fun l => if l.length = 0 then none else some (madSorted l)) false
    multip param maxconv extrastats input

lemma mem_insertSorted {K : Type} [LinearOrder K] (x a : K) (l : List K) :
    a ∈ insertSorted x l ↔ a = x ∨ a ∈ l := by
  induction l with
  | nil => simp [insertSorted]
  | cons y ys ih =>
      by_cases h : x ≤ y
      · simp [insertSorted, h]
      · simp [insertSorted, h, ih]
        tauto

lemma mem_sortIncreasing {K : Type} [LinearOrder K] (a : K) (l : List K) :
    a ∈ sortIncreasing l ↔ a ∈ l := by
  induction l with
  | nil => simp [sortIncreasing]
  | cons y ys ih =>
      show a ∈ insertSorted y (sortIncreasing ys) ↔ _
      rw [mem_insertSorted]
      simp [ih]

lemma getD_nonneg {K : Type} [LinearOrderedField K] {l : List K}
    (h : ∀ x ∈ l, 0 ≤ x) (i : ℕ) : 0 ≤ l.getD i 0 := by
  rcases lt_or_ge i l.length with hi | hi
  · rw [List.getD_eq_getElem l 0 hi]
    exact h _ (List.getElem_mem hi)
  · rw [List.getD_eq_default l 0 hi]

lemma medSorted_nonneg {K : Type} [LinearOrderedField K] {l : List K}
    (h : ∀ x ∈ l, 0 ≤ x) : 0 ≤ medSorted l := by
  unfold medSorted
  split
  · exact getD_nonneg h _
  · have h1 := getD_nonneg h (l.length / 2)
    have h2 := getD_nonneg h (l.length / 2 - 1)
    linarith

lemma madSorted_nonneg {K : Type} [LinearOrderedField K] (l : List K) :
    0 ≤ madSorted l := by
  unfold madSorted
  apply medSorted_nonneg
  intro x hx
  rw [mem_sortIncreasing] at hx
  rcases List.mem_map.mp hx with ⟨y, -, rfl⟩
  exact abs_nonneg _

lemma clipGo_broke_ne_nil {K : Type} [LinearOrderedField K] (cf sf : List K → K)
    (multip param : K) (bytol inc : Bool) (fuel : ℕ) (l : List K) (num : ℕ) (old : K)
    (meas : List K)
    (hb : (clipGo cf sf multip param bytol inc fuel l num old meas).broke = true) :
    (clipGo cf sf multip param bytol inc fuel l num old meas).rounds ≠ [] := by
  cases fuel with
  | zero => simp [clipGo] at hb
  | succ n =>
      by_cases h0 : l.length = 0
      · simp [clipGo, h0] at hb
      · by_cases hs : stopAt bytol param old (sf l) num = true
        · simp [clipGo, h0, hs]
        · simp [clipGo, h0, hs]

lemma clipGo_rounds_spread_shape {K : Type} [LinearOrderedField K] (cf sf : List K → K)
    (multip param : K) (bytol inc : Bool) :
    ∀ (fuel : ℕ) (l : List K) (num : ℕ) (old : K) (meas : List K) (r : ClipRound K),
      r ∈ (clipGo cf sf multip param bytol inc fuel l num old meas).rounds →
      ∃ l', r.spread = sf l' := by
  intro fuel
  induction fuel with
  | zero => intro l num old meas r hr; simp [clipGo] at hr
  | succ n ih =>
      intro l num old meas r hr
      by_cases h0 : l.length = 0
      · simp [clipGo, h0] at hr
      · by_cases hs : stopAt bytol param old (sf l) num = true
        · simp [clipGo, h0, hs] at hr
          exact ⟨l, by rw [hr]⟩
        · simp only [clipGo, h0, if_neg h0, hs, if_neg hs, if_false,
            List.mem_cons] at hr
          cases hr with
          | head => exact ⟨l, rfl⟩
          | tail _ h => exact ih _ _ _ _ _ h

/-- Previous-round spread seen by the `break` test in relative round `k`:
the incoming `oldspread` for `k = 0`, else the spread of round `k-1`. -/
def prevSpread {K : Type} [LinearOrderedField K] (old : K) (rs : List (ClipRound K))
    (k : ℕ) : K :=
  if k = 0 then old else (rs.getD (k - 1) ⟨0, 0, 0⟩).spread

lemma clipGo_stop_iff_aux {K : Type} [LinearOrderedField K] (cf sf : List K → K)
    (multip param : K) (bytol inc : Bool) :
    ∀ (fuel : ℕ) (l : List K) (num : ℕ) (old : K) (meas : List K) (k : ℕ),
      k < (clipGo cf sf multip param bytol inc fuel l num old meas).rounds.length →
      (stopAt bytol param
          (prevSpread old (clipGo cf sf multip param bytol inc fuel l num old meas).rounds k)
          (((clipGo cf sf multip param bytol inc fuel l num old meas).rounds.getD k
              ⟨0, 0, 0⟩).spread)
          (num + k) = true
        ↔ ((clipGo cf sf multip param bytol inc fuel l num old meas).broke = true ∧
            k + 1 = (clipGo cf sf multip param bytol inc fuel l num old meas).rounds.length)) := by
  intro fuel
  induction fuel with
  | zero => intro l num old meas k hk; simp [clipGo] at hk
  | succ n ih =>
      intro l num old meas k hk
      by_cases h0 : l.length = 0
      · simp [clipGo, h0] at hk
      · by_cases hs : stopAt bytol param old (sf l) num = true
        · have ht : clipGo cf sf multip param bytol inc (n + 1) l num old meas
              = ⟨[⟨cf l, sf l, l.length⟩], true, l, l, num⟩ := by
            simp [clipGo, h0, hs]
          rw [ht] at hk ⊢
          have hk0 : k = 0 := by
            simp only [List.length_singleton] at hk; omega
          subst hk0
          simp [prevSpread, hs]
        · have ht : clipGo cf sf multip param bytol inc (n + 1) l num old meas
              = ⟨⟨cf l, sf l, l.length⟩ ::
                    (clipGo cf sf multip param bytol inc n
                      (clipall inc (cf l) (sf l) multip l) (num + 1) (sf l) l).rounds,
                  (clipGo cf sf multip param bytol inc n
                    (clipall inc (cf l) (sf l) multip l) (num + 1) (sf l) l).broke,
                  (clipGo cf sf multip param bytol inc n
                    (clipall inc (cf l) (sf l) multip l) (num + 1) (sf l) l).finalList,
                  (clipGo cf sf multip param bytol inc n
                    (clipall inc (cf l) (sf l) multip l) (num + 1) (sf l) l).measured,
                  (clipGo cf sf multip param bytol inc n
                    (clipall inc (cf l) (sf l) multip l) (num + 1) (sf l) l).num⟩ := by
            simp [clipGo, h0, hs]
          rw [ht] at hk ⊢
          cases k with
          | zero =>
              simp only [prevSpread, if_pos rfl, List.getD_cons_zero, Nat.add_zero]
              constructor
              · intro hcon; exact absurd hcon hs
              · rintro ⟨hb, hlen⟩
                exfalso
                have hne := clipGo_broke_ne_nil cf sf multip param bytol inc n
                  (clipall inc (cf l) (sf l) multip l) (num + 1) (sf l) l hb
                simp only [List.length_cons] at hlen
                have : (clipGo cf sf multip param bytol inc n
                    (clipall inc (cf l) (sf l) multip l) (num + 1) (sf l) l).rounds.length
                    = 0 := by omega
                exact hne (List.length_eq_zero.mp this)
          | succ k' =>
              have hk' : k' < (clipGo cf sf multip param bytol inc n
                  (clipall inc (cf l) (sf l) multip l) (num + 1) (sf l) l).rounds.length := by
                simp only [List.length_cons] at hk; omega
              have hmain := ih (clipall inc (cf l) (sf l) multip l) (num + 1) (sf l) l k' hk'
              have e1 : prevSpread old
                  (⟨cf l, sf l, l.length⟩ ::
                    (clipGo cf sf multip param bytol inc n
                      (clipall inc (cf l) (sf l) multip l) (num + 1) (sf l) l).rounds) (k' + 1)
                  = prevSpread (sf l)
                      (clipGo cf sf multip param bytol inc n
                        (clipall inc (cf l) (sf l) multip l) (num + 1) (sf l) l).rounds k' := by
                cases k' with
                | zero => simp [prevSpread]
                | succ j => simp [prevSpread, List.getD_cons_succ]
              rw [e1, List.getD_cons_succ]
              have e3 : num + (k' + 1) = (num + 1) + k' := by omega
              rw [e3, hmain]
              simp only [List.length_cons]
              constructor
              · rintro ⟨hb, hl2⟩; exact ⟨hb, by omega⟩
              · rintro ⟨hb, hl2⟩; exact ⟨hb, by omega⟩

lemma clipGo_exhaust {K : Type} [LinearOrderedField K] (cf sf : List K → K)
    (multip param : K) (bytol inc : Bool) :
    ∀ (fuel : ℕ) (l : List K) (num : ℕ) (old : K) (meas : List K),
      (clipGo cf sf multip param bytol inc fuel l num old meas).broke = false →
      (clipGo cf sf multip param bytol inc fuel l num old meas).finalList.length = 0 ∨
        (clipGo cf sf multip param bytol inc fuel l num old meas).num = num + fuel := by
  intro fuel
  induction fuel with
  | zero => intro l num old meas _; right; simp [clipGo]
  | succ n ih =>
      intro l num old meas hb
      by_cases h0 : l.length = 0
      · left; simp [clipGo, h0]
      · by_cases hs : stopAt bytol param old (sf l) num = true
        · exfalso
          have hbt : (clipGo cf sf multip param bytol inc (n + 1) l num old meas).broke
              = true := by
            simp [clipGo, h0, hs]
          rw [hbt] at hb
          simp at hb
        · have ht : clipGo cf sf multip param bytol inc (n + 1) l num old meas
              = ⟨⟨cf l, sf l, l.length⟩ ::
                    (clipGo cf sf multip param bytol inc n
                      (clipall inc (cf l) (sf l) multip l) (num + 1) (sf l) l).rounds,
                  (clipGo cf sf multip param bytol inc n
                    (clipall inc (cf l) (sf l) multip l) (num + 1) (sf l) l).broke,
                  (clipGo cf sf multip param bytol inc n
                    (clipall inc (cf l) (sf l) multip l) (num + 1) (sf l) l).finalList,
                  (clipGo cf sf multip param bytol inc n
                    (clipall inc (cf l) (sf l) multip l) (num + 1) (sf l) l).measured,
                  (clipGo cf sf multip param bytol inc n
                    (clipall inc (cf l) (sf l) multip l) (num + 1) (sf l) l).num⟩ := by
            simp [clipGo, h0, hs]
          rw [ht] at hb ⊢
          rcases ih (clipall inc (cf l) (sf l) multip l) (num + 1) (sf l) l hb with h | h
          · left; exact h
          · right; rw [h]; omega

/-- CLAIM C1: in every run of the shared clip loop (`clip_sigma` and
`clip_mad` both instantiate `statistics_clip`, here generic in the center
and spread functions) on a view with more than one non-blank element, the
iteration breaks at a measured round `k` exactly when the spread of that
round is 0, or, when operating by tolerance (`param < 1`) and `k > 0`,
when `(spread_(k-1) - spread_k)/spread_k < param`; the comparison is not
absolute-valued, so a spread increase (which makes the quotient negative)
also stops the loop. -/
theorem claim1_clip_stop_iff {K : Type} [LinearOrderedField K] (cf sf : List K → K)
    (multip param : K) (maxnum : ℕ) (inc : Bool) (l : List K)
    (hl : 1 < l.length) (k : ℕ)
    (hk : k < (clipTrace cf sf multip param maxnum inc l).rounds.length) :
    ((clipTrace cf sf multip param maxnum inc l).broke = true ∧
        k + 1 = (clipTrace cf sf multip param maxnum inc l).rounds.length)
      ↔ (roundsSpread (clipTrace cf sf multip param maxnum inc l) k = 0 ∨
          (param < 1 ∧ 0 < k ∧
            (roundsSpread (clipTrace cf sf multip param maxnum inc l) (k - 1) -
                roundsSpread (clipTrace cf sf multip param maxnum inc l) k) /
              roundsSpread (clipTrace cf sf multip param maxnum inc l) k < param)) := by
  have haux := clipGo_stop_iff_aux cf sf multip param (decide (param < 1)) inc
    maxnum l 0 0 l k hk
  rw [show clipGo cf sf multip param (decide (param < 1)) inc maxnum l 0 0 l
      = clipTrace cf sf multip param maxnum inc l from rfl] at haux
  rw [← haux]
  simp only [stopAt, Bool.or_eq_true, Bool.and_eq_true, decide_eq_true_eq, roundsSpread]
  by_cases hk0 : k = 0
  · subst hk0
    simp [prevSpread]
  · have hpos : 0 < k := Nat.pos_of_ne_zero hk0
    simp only [prevSpread, if_neg hk0, Nat.zero_add]
    constructor
    · rintro (h | ⟨⟨h1, h2⟩, h3⟩)
      · exact Or.inl h
      · exact Or.inr ⟨h1, h2, h3⟩
    · rintro (h | ⟨h1, h2, h3⟩)
      · exact Or.inl h
      · exact Or.inr ⟨⟨h1, h2⟩, h3⟩

/-- Witness for C1: on `[0,1,5]` with `multip = 1`, fixed-count
`param = 2`, the second round measures a zero spread and the loop breaks
exactly there. -/
theorem claim1_witness :
    1 < ([0, 1, 5] : List ℚ).length ∧
      1 < (clipTrace medSorted madSorted (1 : ℚ) 2 2 true [0, 1, 5]).rounds.length ∧
      ((clipTrace medSorted madSorted (1 : ℚ) 2 2 true [0, 1, 5]).broke = true ∧
        1 + 1 = (clipTrace medSorted madSorted (1 : ℚ) 2 2 true [0, 1, 5]).rounds.length) :=
  ⟨by decide, by decide,
    (claim1_clip_stop_iff medSorted madSorted (1 : ℚ) 2 2 true [0, 1, 5]
      (by decide) 1 (by decide)).mpr (by decide)⟩

/-- CLAIM C5 counterexample: a MAD-clip run where the loop continues past
round 0 and the spread of round 1 exceeds the spread of round 0: on the
sorted input `[0,5,6,9,10,12]` with `multip = 5/2` (fixed-count
`param = 3`) the MAD grows from `5/2` to `3` after the first clip, so the
claimed monotonicity fails under both stopping policies (in tolerance mode
round 0 to round 1 is likewise unchecked). -/
theorem claim5_counterexample :
    2 ≤ (clipTrace medSorted madSorted ((5 : ℚ)/2) 3 3 true
          [0, 5, 6, 9, 10, 12]).rounds.length ∧
      roundsSpread (clipTrace medSorted madSorted ((5 : ℚ)/2) 3 3 true
          [0, 5, 6, 9, 10, 12]) 0 <
        roundsSpread (clipTrace medSorted madSorted ((5 : ℚ)/2) 3 3 true
          [0, 5, 6, 9, 10, 12]) 1 := by
  decide

/-- CLAIM C5 (amended): the spread is not monotone across rounds in
general (see the counterexample).  What the stopping rule does guarantee
is one round later: under the tolerance policy, whenever the loop
continues past a round `k ≥ 1` (rounds `k` and `k+1` are both measured),
the spread of round `k` is strictly below the spread of round `k-1`,
since continuation required `(spread_(k-1) - spread_k)/spread_k ≥ param > 0`.
Holds for any nonnegative spread measure (MAD and standard deviation
both are). -/
theorem claim5_amended {K : Type} [LinearOrderedField K] (cf sf : List K → K)
    (multip param : K) (maxnum : ℕ) (inc : Bool) (l : List K)
    (hsf : ∀ l' : List K, 0 ≤ sf l') (hp1 : param < 1) (hp0 : 0 < param)
    (k : ℕ) (hk1 : 1 ≤ k)
    (hk : k + 1 < (clipTrace cf sf multip param maxnum inc l).rounds.length) :
    roundsSpread (clipTrace cf sf multip param maxnum inc l) k <
      roundsSpread (clipTrace cf sf multip param maxnum inc l) (k - 1) := by
  have hklt : k < (clipTrace cf sf multip param maxnum inc l).rounds.length := by omega
  have haux := clipGo_stop_iff_aux cf sf multip param (decide (param < 1)) inc
    maxnum l 0 0 l k hklt
  rw [show clipGo cf sf multip param (decide (param < 1)) inc maxnum l 0 0 l
      = clipTrace cf sf multip param maxnum inc l from rfl] at haux
  have hnostop : ¬ (stopAt (decide (param < 1)) param
      (prevSpread 0 (clipTrace cf sf multip param maxnum inc l).rounds k)
      (((clipTrace cf sf multip param maxnum inc l).rounds.getD k ⟨0, 0, 0⟩).spread)
      (0 + k) = true) := by
    rw [haux]
    rintro ⟨-, hlen⟩
    omega
  simp only [stopAt, Bool.or_eq_true, Bool.and_eq_true, decide_eq_true_eq,
    not_or, not_and] at hnostop
  obtain ⟨hs0, htol⟩ := hnostop
  have hk0 : ¬ (k = 0) := by omega
  have hspos : 0 < ((clipTrace cf sf multip param maxnum inc l).rounds.getD k
      ⟨0, 0, 0⟩).spread := by
    have hmem : ((clipTrace cf sf multip param maxnum inc l).rounds.getD k ⟨0, 0, 0⟩)
        ∈ (clipTrace cf sf multip param maxnum inc l).rounds := by
      rw [List.getD_eq_getElem _ _ hklt]
      exact List.getElem_mem hklt
    obtain ⟨l', hl'⟩ := clipGo_rounds_spread_shape cf sf multip param
      (decide (param < 1)) inc maxnum l 0 0 l _ hmem
    rcases lt_or_eq_of_le (hl' ▸ hsf l') with h | h
    · exact h
    · exact absurd h.symm hs0
  have hnotlt := htol ⟨hp1, by omega⟩
  have hge : param ≤
      (prevSpread 0 (clipTrace cf sf multip param maxnum inc l).rounds k -
        ((clipTrace cf sf multip param maxnum inc l).rounds.getD k ⟨0, 0, 0⟩).spread) /
      ((clipTrace cf sf multip param maxnum inc l).rounds.getD k ⟨0, 0, 0⟩).spread :=
    le_of_not_lt hnotlt
  rw [le_div_iff hspos] at hge
  have hprev : prevSpread 0 (clipTrace cf sf multip param maxnum inc l).rounds k
      = roundsSpread (clipTrace cf sf multip param maxnum inc l) (k - 1) := by
    simp [prevSpread, hk0, roundsSpread]
  have hmul : 0 < param * ((clipTrace cf sf multip param maxnum inc l).rounds.getD k
      ⟨0, 0, 0⟩).spread := mul_pos hp0 hspos
  rw [hprev] at hge
  simp only [roundsSpread] at hge ⊢
  linarith

/-- Witness for C5 (amended): the tolerance MAD-clip run on
`[3,9,17,17,18,26]` with `multip = 3`, `param = 1/10` measures three
rounds; continuing past round 1 forced `spread_1 < spread_0`. -/
theorem claim5_witness :
    (∀ l' : List ℚ, 0 ≤ madSorted l') ∧ ((1 : ℚ)/10 < 1) ∧ ((0 : ℚ) < 1/10) ∧ 1 ≤ 1 ∧
      1 + 1 < (clipTrace medSorted madSorted (3 : ℚ) (1/10) 50 true
          [3, 9, 17, 17, 18, 26]).rounds.length ∧
      roundsSpread (clipTrace medSorted madSorted (3 : ℚ) (1/10) 50 true
          [3, 9, 17, 17, 18, 26]) 1 <
        roundsSpread (clipTrace medSorted madSorted (3 : ℚ) (1/10) 50 true
          [3, 9, 17, 17, 18, 26]) (1 - 1) :=
  ⟨madSorted_nonneg, by norm_num, by norm_num, le_refl 1, by decide,
    claim5_amended medSorted madSorted (3 : ℚ) (1/10) 50 true [3, 9, 17, 17, 18, 26]
      madSorted_nonneg (by norm_num) (by norm_num) 1 (le_refl 1) (by decide)⟩

/-- CLAIM C6: with valid clip parameters and no extra statistics
requested (`extrastats = NULL`), a run on an input with zero non-blank
elements returns every output field NaN, reports no round and raises no
error; a run on an input with exactly one non-blank element returns that
element (converted to floating point) as center, spread 0 in the
clip variant's own spread column, and reports exactly one round (the
progress row `(1,1)` — the returned `NUMBER_CLIPS` column stays NaN and
`status` stays 0 in this branch, as neither is assigned). -/
theorem claim6_clip_edge {K : Type} [LinearOrderedField K] [FloorRing K]
    (cf sf : List K → K) (meanF stdF madF : List K → Option K) (sig1_mad0 : Bool)
    (multip param : K) (maxconv : ℕ)
    (hm : 0 < multip) (hp : 0 < param)
    (hint : 1 ≤ param → param = (⌊param⌋ : K)) :
    (∀ input : List (Option K), (input.filterMap id).length = 0 →
        statistics_clip cf sf meanF stdF madF sig1_mad0 multip param maxconv
            ⟨false, false, false⟩ input
          = ⟨none, none, none, none, none, none, 0, []⟩) ∧
      (∀ (input : List (Option K)) (x : K), input.filterMap id = [x] →
        statistics_clip cf sf meanF stdF madF sig1_mad0 multip param maxconv
            ⟨false, false, false⟩ input
          = ⟨some x, some 1, (if sig1_mad0 then some 0 else none),
              (if sig1_mad0 then none else some 0), none, none, 0, [(1, 1)]⟩) := by
  constructor
  · intro input h0
    have hnil : input.filterMap id = [] := List.length_eq_zero.mp h0
    unfold statistics_clip gal_statistics_no_blank_sorted
    simp [hnil, isSortedClass, statistics_clip_stats_extra]
  · intro input x hx
    unfold statistics_clip gal_statistics_no_blank_sorted
    simp [hx, isSortedClass, statistics_clip_stats_extra]

/-- Witness for C6: concrete empty and singleton inputs (with blanks)
under MAD clipping with `multip = 3`, `param = 2`, no extra statistics. -/
theorem claim6_witness :
    statistics_clip medSorted madSorted gal_statistics_mean (fun _ => none)
        (fun l => if l.length = 0 then none else some (madSorted l)) false
        (3 : ℚ) 2 50 ⟨false, false, false⟩ [none, none]
        = ⟨none, none, none, none, none, none, 0, []⟩ ∧
      statistics_clip medSorted madSorted gal_statistics_mean (fun _ => none)
        (fun l => if l.length = 0 then none else some (madSorted l)) false
        (3 : ℚ) 2 50 ⟨false, false, false⟩ [none, some 7]
        = ⟨some 7, some 1, none, some 0, none, none, 0, [(1, 1)]⟩ :=
  ⟨(claim6_clip_edge medSorted madSorted gal_statistics_mean (fun _ => none)
      (fun l => if l.length = 0 then none else some (madSorted l)) false
      (3 : ℚ) 2 50 (by norm_num) (by norm_num)
      (fun _ => by norm_num)).1 [none, none] (by decide),
    ((claim6_clip_edge medSorted madSorted gal_statistics_mean (fun _ => none)
      (fun l => if l.length = 0 then none else some (madSorted l)) false
      (3 : ℚ) 2 50 (by norm_num) (by norm_num)
      (fun _ => by norm_num)).2 [none, some 7] 7 (by decide)).trans (by decide)⟩

/-- CLAIM C10 counterexample: the claim's "every element of the returned
clip output is NaN; the round count survives only in `status`" ignores
the `statistics_clip_stats_extra` call, which runs after the
tolerance-failure NaN fill and refills any requested optional column
that is still NaN from the last measured range.  Concretely: the
tolerance MAD-clip run (`param = 1/10 < 1`, `maxconv = 1`) on `[0,1,5]`
with the optional MAD requested measures one round, never takes the
convergence break — yet the returned MAD column is `1` (the MAD of the
last measured range `[0,1,5]`), not NaN. -/
theorem claim10_counterexample :
    ((1 : ℚ)/10 < 1) ∧
      (clipTrace medSorted madSorted (1 : ℚ) (1/10) 1
        (nbsIncreasing [some (0 : ℚ), some 1, some 5])
        (gal_statistics_no_blank_sorted [some (0 : ℚ), some 1, some 5])).broke = false ∧
      (gal_statistics_clip_mad (fun _ => none) (1 : ℚ) (1/10) 1 ⟨false, true, false⟩
        [some 0, some 1, some 5]).mad = some 1 := by
  decide

/-- CLAIM C10 (amended): in a tolerance-mode run (`param < 1`) on a view
with more than one element in which the loop never takes its convergence
`break` (the tolerance criterion was never met within the maximum round
count, or the clipped range became empty), the NaN fill overwrites every
output column — median, number used, the MAD/STD spread column, and the
number-of-clips column itself — and the round count is kept in the
returned dataset's `status` field; but `statistics_clip_stats_extra`
then refills each column requested through `extrastats` (mean, and the
STD/MAD columns, all NaN at that point) with the statistic of the range
`nbs` still designates, namely the range measured in the last executed
round.  With no extra statistics requested the output is all-NaN except
`status`, as the original claim says. -/
theorem claim10_amended {K : Type} [LinearOrderedField K] [FloorRing K]
    (cf sf : List K → K) (meanF stdF madF : List K → Option K) (sig1_mad0 : Bool)
    (multip param : K) (maxconv : ℕ) (extrastats : ClipExtra)
    (input : List (Option K)) (hp : param < 1)
    (h2 : 1 < (gal_statistics_no_blank_sorted input : List K).length)
    (hnb : (clipTrace cf sf multip param maxconv (nbsIncreasing input)
        (gal_statistics_no_blank_sorted input)).broke = false) :
    statistics_clip cf sf meanF stdF madF sig1_mad0 multip param maxconv extrastats input
      = ⟨none, none,
          (if extrastats.std then
            stdF (clipTrace cf sf multip param maxconv (nbsIncreasing input)
              (gal_statistics_no_blank_sorted input)).measured
           else none),
          (if extrastats.mad then
            madF (clipTrace cf sf multip param maxconv (nbsIncreasing input)
              (gal_statistics_no_blank_sorted input)).measured
           else none),
          (if extrastats.mean then
            meanF (clipTrace cf sf multip param maxconv (nbsIncreasing input)
              (gal_statistics_no_blank_sorted input)).measured
           else none),
          none,
          (clipTrace cf sf multip param maxconv (nbsIncreasing input)
            (gal_statistics_no_blank_sorted input)).num,
          (clipTrace cf sf multip param maxconv (nbsIncreasing input)
            (gal_statistics_no_blank_sorted input)).rounds.enum.map
            (fun p => (p.1 + 1, p.2.size))⟩ := by
  have hnle : ¬ (1 ≤ param) := not_le.mpr hp
  have hmax : (if 1 ≤ param then (⌊param⌋).toNat else maxconv) = maxconv := if_neg hnle
  have hexh := clipGo_exhaust cf sf multip param (decide (param < 1))
    (nbsIncreasing input) maxconv (gal_statistics_no_blank_sorted input) 0 0
    (gal_statistics_no_blank_sorted input) hnb
  rw [show clipGo cf sf multip param (decide (param < 1)) (nbsIncreasing input) maxconv
      (gal_statistics_no_blank_sorted input) 0 0 (gal_statistics_no_blank_sorted input)
      = clipTrace cf sf multip param maxconv (nbsIncreasing input)
          (gal_statistics_no_blank_sorted input) from rfl] at hexh
  have hcond : (clipTrace cf sf multip param maxconv (nbsIncreasing input)
        (gal_statistics_no_blank_sorted input)).finalList = [] ∨
      (param < 1 ∧ (clipTrace cf sf multip param maxconv (nbsIncreasing input)
        (gal_statistics_no_blank_sorted input)).num = maxconv) := by
    rcases hexh with h | h
    · exact Or.inl (List.length_eq_zero.mp h)
    · exact Or.inr ⟨hp, by omega⟩
  unfold statistics_clip
  rw [hmax]
  have hne0 : ¬ ((gal_statistics_no_blank_sorted input : List K).length = 0) := by omega
  have hne1 : ¬ ((gal_statistics_no_blank_sorted input : List K).length = 1) := by omega
  rw [if_neg hne0, if_neg hne1]
  simp [if_pos hcond, statistics_clip_stats_extra]

/-- Witness for C10 (amended): the tolerance MAD-clip run (`param = 1/10`)
on `[0,1,5]` with `maxconv = 1` and the optional MAD requested measures
one round, cannot break, and returns the record whose only non-NaN
columns are the refilled MAD (`1`, the MAD of the last measured range)
and nothing else, with `status = 1` and the single progress row
`(1,3)`. -/
theorem claim10_witness :
    ((1 : ℚ)/10 < 1) ∧
      1 < (gal_statistics_no_blank_sorted [some (0 : ℚ), some 1, some 5]).length ∧
      (clipTrace medSorted madSorted (1 : ℚ) (1/10) 1
        (nbsIncreasing [some (0 : ℚ), some 1, some 5])
        (gal_statistics_no_blank_sorted [some (0 : ℚ), some 1, some 5])).broke = false ∧
      gal_statistics_clip_mad (fun _ => none) (1 : ℚ) (1/10) 1 ⟨false, true, false⟩
          [some 0, some 1, some 5]
        = ⟨none, none, none, some 1, none, none, 1, [(1, 3)]⟩ :=
  ⟨by norm_num, by decide, by decide,
    (claim10_amended medSorted madSorted gal_statistics_mean (fun _ => none)
      (fun l => if l.length = 0 then none else some (madSorted l)) false
      (1 : ℚ) (1/10) 1 ⟨false, true, false⟩ [some 0, some 1, some 5]
      (by norm_num) (by decide) (by decide)).trans (by decide)⟩

/-- A bins dataset: the bin-center column and its `status` tag
(`GAL_STATISTICS_BINS_REGULAR`). -/
structure Bins where
  centers : List ℚ
  regular : Bool
deriving DecidableEq

/-- Model of `gal_statistics_regular_bins` (with the range already
resolved to `min`/`max`, as the range-selection preamble only computes
these two numbers): centers `min + i*binwidth + binwidth/2`; when
`onebinstart` is given and an interior bin straddles it, all centers are
shifted so that that bin's left edge falls on it. -/
def gal_statistics_regular_bins (min max : ℚ) (numbins : ℕ)
    (onebinstart : Option ℚ) : Option Bins :=
  if numbins = 0 then none
  else
    let binwidth := (max - min) / numbins
    let hbw := binwidth / 2
    let b0 := (List.range numbins).map (fun i => min + i * binwidth + hbw)
    let b :=
      match onebinstart with
      | none => b0
      | some obs =>
          match (List.range (numbins - 1)).find?
              (fun i => decide (b0.getD i 0 - hbw < obs) &&
                decide (obs < b0.getD (i + 1) 0 - hbw)) with
          | some i => b0.map (fun c => c + (obs - (b0.getD i 0 - hbw)))
          | none => b0
    some ⟨b, true⟩

/-- The histogram's range minimum, as `gal_statistics_histogram` computes
it from the bins: `d[0] - binwidth/2`. -/
def histMin (bins : Bins) : ℚ :=
  bins.centers.getD 0 0 - (bins.centers.getD 1 0 - bins.centers.getD 0 0) / 2

/-- The histogram's range maximum: `d[size-1] + binwidth/2`. -/
def histMax (bins : Bins) : ℚ :=
  bins.centers.getD (bins.centers.length - 1) 0 +
    (bins.centers.getD 1 0 - bins.centers.getD 0 0) / 2

/-- The bin width `d[1] - d[0]` used by `gal_statistics_histogram`. -/
def histBinwidth (bins : Bins) : ℚ :=
  bins.centers.getD 1 0 - bins.centers.getD 0 0

/-- Increment one histogram bin (`++h[...]`). -/
def histIncr (h : List ℕ) (i : ℕ) : List ℕ :=
  h.set i (h.getD i 0 + 1)

/-- The accumulation loop of macro `HISTOGRAM_TYPESET`: for each in-range
element, bin index `floor((x-min)/binwidth)`, redirected to the last bin
when it equals the bin count (an element exactly at the extreme right
edge). -/
def histAccum (mn mx bw : ℚ) : List ℚ → List ℕ → List ℕ
  | [], h => h
  | x :: xs, h =>
      histAccum mn mx bw xs
        (if mn ≤ x ∧ x ≤ mx then
          histIncr h
            (if (⌊(x - mn) / bw⌋).toNat = h.length then (⌊(x - mn) / bw⌋).toNat - 1
             else (⌊(x - mn) / bw⌋).toNat)
         else h)

/-- Model of `gal_statistics_histogram`: `none` models the aborts (null or
single-element bins, non-regular bins, empty input, `normalize` together
with `maxone`); the output is float-typed, so counts are cast, and
normalized by the total or the maximum when requested. -/
def gal_statistics_histogram (input : List ℚ) (bins : Bins)
    (normalize maxone : Bool) : Option (List ℚ) :=
  if bins.centers.length ≤ 1 then none
  else if bins.regular = false then none
  else if input.length = 0 then none
  else if normalize && maxone then none
  else
    let counts := histAccum (histMin bins) (histMax bins) (histBinwidth bins) input
        (List.replicate bins.centers.length 0)
    if normalize then some (counts.map (fun c => (c : ℚ) / (counts.sum : ℚ)))
    else if maxone then some (counts.map (fun c => (c : ℚ) / ((counts.foldl max 0 : ℕ) : ℚ)))
    else some (counts.map (fun c => (c : ℚ)))

lemma histIncr_sum (h : List ℕ) (i : ℕ) (hi : i < h.length) :
    (histIncr h i).sum = h.sum + 1 := by
  induction h generalizing i with
  | nil => simp at hi
  | cons a t ih =>
      cases i with
      | zero => simp [histIncr]; omega
      | succ j =>
          have hj : j < t.length := by simpa using hi
          have hset : histIncr (a :: t) (j + 1) = a :: histIncr t j := by
            simp [histIncr, List.getD_cons_succ]
          rw [hset, List.sum_cons, List.sum_cons, ih j hj]
          omega

lemma histIncr_length (h : List ℕ) (i : ℕ) : (histIncr h i).length = h.length := by
  simp [histIncr]

lemma histAccum_sum (mn bw : ℚ) (hbw : 0 < bw) (n : ℕ) (hn : 2 ≤ n) :
    ∀ (xs : List ℚ) (h : List ℕ), h.length = n →
      (histAccum mn (mn + n * bw) bw xs h).sum
        = h.sum + xs.countP (fun x => decide (mn ≤ x ∧ x ≤ mn + n * bw)) := by
  intro xs
  induction xs with
  | nil => intro h _; simp [histAccum]
  | cons x xs ih =>
      intro h hh
      by_cases hin : mn ≤ x ∧ x ≤ mn + n * bw
      · have hidx : (if (⌊(x - mn) / bw⌋).toNat = h.length
            then (⌊(x - mn) / bw⌋).toNat - 1 else (⌊(x - mn) / bw⌋).toNat) < h.length := by
          have hle : (x - mn) / bw ≤ (n : ℚ) := by
            rw [div_le_iff hbw]
            linarith [hin.2]
          have hfl : ⌊(x - mn) / bw⌋ ≤ (n : ℤ) := by
            have := Int.floor_le_floor hle
            rwa [Int.floor_natCast] at this
          have htn : (⌊(x - mn) / bw⌋).toNat ≤ n := by omega
          rw [hh]
          by_cases he : (⌊(x - mn) / bw⌋).toNat = n
          · simp [he]; omega
          · rw [if_neg (by omega)]; omega
        have hrec := ih (histIncr h
            (if (⌊(x - mn) / bw⌋).toNat = h.length then (⌊(x - mn) / bw⌋).toNat - 1
             else (⌊(x - mn) / bw⌋).toNat))
            (by rw [histIncr_length, hh])
        simp only [histAccum, if_pos hin]
        rw [hrec, histIncr_sum h _ hidx, List.countP_cons]
        simp [hin]
        omega
      · simp only [histAccum, if_neg hin]
        rw [ih h hh, List.countP_cons]
        simp [hin]

/-- CLAIM C4: for a nonempty input and regular bins with at least two
bins, the non-normalized histogram's counts sum to the number of source
elements `x` with `min ≤ x ≤ max`, where `min`/`max` are the outermost
bin edges as the histogram computes them (an element exactly at the right
edge is redirected into the last bin, so it is counted). -/
theorem claim4_histogram_sum (input : List ℚ) (bins : Bins) (c0 w : ℚ) (n : ℕ)
    (hreg : bins.regular = true) (hlen : bins.centers.length = n)
    (hctr : ∀ i < n, bins.centers.getD i 0 = c0 + i * w)
    (hw : 0 < w) (hn : 2 ≤ n) (hinp : 1 ≤ input.length) :
    ∃ counts : List ℕ,
      gal_statistics_histogram input bins false false
          = some (counts.map (fun c => (c : ℚ))) ∧
        counts.sum = input.countP
          (fun x => decide (histMin bins ≤ x ∧ x ≤ histMax bins)) := by
  have hbw : histBinwidth bins = w := by
    unfold histBinwidth
    rw [hctr 0 (by omega), hctr 1 (by omega)]
    push_cast
    ring
  have hmx : histMax bins = histMin bins + n * w := by
    unfold histMax histMin
    rw [hlen, hctr 0 (by omega), hctr 1 (by omega), hctr (n - 1) (by omega)]
    have : ((n - 1 : ℕ) : ℚ) = (n : ℚ) - 1 := by
      push_cast [Nat.cast_sub (by omega : 1 ≤ n)]
      ring
    rw [this]
    ring
  refine ⟨histAccum (histMin bins) (histMax bins) (histBinwidth bins) input
      (List.replicate bins.centers.length 0), ?_, ?_⟩
  · unfold gal_statistics_histogram
    rw [if_neg (by omega), if_neg (by simp [hreg]), if_neg (by omega)]
    simp
  · rw [hmx, hbw]
    have := histAccum_sum (histMin bins) w hw n hn input
      (List.replicate bins.centers.length 0) (by simp [hlen])
    rw [this]
    simp

/-- Witness for C4: four unit bins centered at `0..3` and the input
`[1/2, 3/2, 5/2, 9]`; three elements are in `[-1/2, 7/2]` and the counts
sum to 3. -/
theorem claim4_witness :
    (Bins.mk [0, 1, 2, 3] true).regular = true ∧
      (Bins.mk [0, 1, 2, 3] true).centers.length = 4 ∧
      (∀ i < 4, (Bins.mk [0, 1, 2, 3] true).centers.getD i 0 = 0 + (i : ℚ) * 1) ∧
      (0 : ℚ) < 1 ∧ 2 ≤ 4 ∧
      1 ≤ ([1/2, 3/2, 5/2, 9] : List ℚ).length ∧
      ∃ counts : List ℕ,
        gal_statistics_histogram [1/2, 3/2, 5/2, 9] (Bins.mk [0, 1, 2, 3] true) false false
            = some (counts.map (fun c => (c : ℚ))) ∧
          counts.sum = ([1/2, 3/2, 5/2, 9] : List ℚ).countP
            (fun x => decide (histMin (Bins.mk [0, 1, 2, 3] true) ≤ x ∧
              x ≤ histMax (Bins.mk [0, 1, 2, 3] true))) :=
  ⟨rfl, rfl, by decide, by norm_num, by norm_num, by decide,
    claim4_histogram_sum [1/2, 3/2, 5/2, 9] (Bins.mk [0, 1, 2, 3] true) 0 1 4
      rfl rfl (by decide) (by norm_num) (by norm_num) (by decide)⟩

/-- The window of `window_size - 1` sorted gaps preceding position `i`
(macro `OUTLIER_BYTYPE`, forward direction):
`darr[j] = arr[i-window_size+j+1] - arr[i-window_size+j]`. -/
def distsOf (l : List ℚ) (ws i : ℕ) : List ℚ :=
  (List.range (ws - 1)).map
    (fun j => l.getD (i - ws + j + 1) 0 - l.getD (i - ws + j) 0)

/-- The scan of macro `OUTLIER_BYTYPE` (forward direction): at each
position `i` from `window_size` on, MAD-clip the preceding gap window to
a baseline `(median, std)` and report `arr[i-1]` at the first position
whose gap `arr[i]-arr[i-1]` exceeds `median + sigma*std`.  The baseline
is a parameter: in the C it is `gal_statistics_clip_mad` with the
`OUTCOL_STD` extra statistic (a real-valued square root); every theorem
below holds for any baseline function. -/
def outlierGo (baseline : List ℚ → ℚ × ℚ) (l : List ℚ) (ws : ℕ) (sigma : ℚ) :
    ℕ → ℕ → Option ℚ
  | _, 0 => none
  | i, fuel + 1 =>
      if i < l.length then
        (if l.getD i 0 - l.getD (i - 1) 0 - (baseline (distsOf l ws i)).1 >
            sigma * (baseline (distsOf l ws i)).2 then
          some (l.getD (i - 1) 0)
        else outlierGo baseline l ws sigma (i + 1) fuel)
      else none

/-- Model of `gal_statistics_outlier_bydistance` (forward direction,
`pos1_neg0 = 1`): `none` models the NULL "no outlier" return (all-blank
input, `window_size ≤ 2`, or a scan that exhausts the array). -/
def gal_statistics_outlier_bydistance (baseline : List ℚ → ℚ × ℚ)
    (input : List (Option ℚ)) (ws : ℕ) (sigma : ℚ) : Option ℚ :=
  let nbs := gal_statistics_no_blank_sorted input
  if nbs.length = 0 then none
  else if 2 < ws then outlierGo baseline nbs ws sigma ws (nbs.length - ws)
  else none

/-- The gap test at position `i`, as a Boolean predicate. -/
def gapTest (baseline : List ℚ → ℚ × ℚ) (l : List ℚ) (ws : ℕ) (sigma : ℚ)
    (i : ℕ) : Bool :=
  decide (l.getD i 0 - l.getD (i - 1) 0 - (baseline (distsOf l ws i)).1 >
    sigma * (baseline (distsOf l ws i)).2)

lemma isSortedClass_ne_zero {K : Type} [LinearOrder K] {l : List K}
    (h : isSortedI l = true) : isSortedClass l ≠ 0 := by
  cases l with
  | nil => simp [isSortedClass]
  | cons a t =>
      cases t with
      | nil => simp [isSortedClass]
      | cons b t2 =>
          have hab : a ≤ b := by
            simp only [isSortedI, Bool.and_eq_true, decide_eq_true_eq] at h
            exact h.1
          simp [isSortedClass, hab, h]

lemma filterMap_id_map_some {K : Type} (l : List K) :
    (l.map some).filterMap id = l := by
  induction l with
  | nil => simp
  | cons x xs ih => simp [ih]

lemma no_blank_sorted_map_some {K : Type} [LinearOrder K] (l : List K)
    (h : isSortedI l = true) :
    gal_statistics_no_blank_sorted (l.map some) = l := by
  unfold gal_statistics_no_blank_sorted
  simp [filterMap_id_map_some, isSortedClass_ne_zero h]

lemma outlierGo_eq_find (baseline : List ℚ → ℚ × ℚ) (l : List ℚ) (ws : ℕ)
    (sigma : ℚ) :
    ∀ (fuel i : ℕ), i + fuel = l.length →
      outlierGo baseline l ws sigma i fuel
        = (match (List.range' i fuel).find? (gapTest baseline l ws sigma) with
           | some j => some (l.getD (j - 1) 0)
           | none => none) := by
  intro fuel
  induction fuel with
  | zero => intro i _; simp [outlierGo, List.range']
  | succ n ih =>
      intro i hi
      have hilt : i < l.length := by omega
      rw [List.range'_succ]
      by_cases hg : gapTest baseline l ws sigma i = true
      · have : outlierGo baseline l ws sigma i (n + 1) = some (l.getD (i - 1) 0) := by
          simp only [outlierGo, if_pos hilt]
          rw [if_pos (by simpa [gapTest] using hg)]
        rw [this, List.find?_cons_of_pos _ hg]
      · have : outlierGo baseline l ws sigma i (n + 1)
            = outlierGo baseline l ws sigma (i + 1) n := by
          simp only [outlierGo, if_pos hilt]
          rw [if_neg (by simpa [gapTest] using hg)]
        rw [this, List.find?_cons_of_neg _ hg, ih (i + 1) (by omega)]

/-- CLAIM C9: on a sorted blank-free input, with `window_size > 2` the
detector returns the element immediately before the first position whose
gap to its previous element exceeds the window baseline's
`median + sigma*std` (and `none` when no position passes, e.g. uniformly
spaced data); with `window_size ≤ 2` it returns `none` without error.
Stated for every baseline function, hence for the MAD-clipped baseline of
the C. -/
theorem claim9_outlier_bydistance (baseline : List ℚ → ℚ × ℚ) (l : List ℚ)
    (ws : ℕ) (sigma : ℚ) (hsort : isSortedI l = true) :
    (2 < ws →
      gal_statistics_outlier_bydistance baseline (l.map some) ws sigma
        = (match (List.range' ws (l.length - ws)).find?
              (gapTest baseline l ws sigma) with
           | some j => some (l.getD (j - 1) 0)
           | none => none)) ∧
      (ws ≤ 2 →
        gal_statistics_outlier_bydistance baseline (l.map some) ws sigma = none) := by
  have hnbs : gal_statistics_no_blank_sorted (l.map some) = l :=
    no_blank_sorted_map_some l hsort
  constructor
  · intro hws
    unfold gal_statistics_outlier_bydistance
    rw [hnbs]
    by_cases h0 : l.length = 0
    · rw [if_pos h0]
      have : l.length - ws = 0 := by omega
      simp [this, List.range']
    · rw [if_neg h0, if_pos hws]
      by_cases hwl : ws ≤ l.length
      · exact outlierGo_eq_find baseline l ws sigma (l.length - ws) ws (by omega)
      · have h1 : l.length - ws = 0 := by omega
        have h2 : outlierGo baseline l ws sigma ws 0 = none := by simp [outlierGo]
        rw [h1, h2]
        simp [List.range']
  · intro hws
    unfold gal_statistics_outlier_bydistance
    rw [hnbs]
    by_cases h0 : l.length = 0
    · simp [h0]
    · rw [if_neg h0, if_neg (by omega)]

/-- Witness for C9 with the MAD baseline: on `[0,1,2,3,4,100]` with
`window_size = 4`, `sigma = 1`, the first passing position is 5 (gap 96
over a zero-spread baseline of unit gaps) and the element before the
jump, `4`, is returned; with `window_size = 2` the result is `none`. -/
theorem claim9_witness :
    isSortedI ([0, 1, 2, 3, 4, 100] : List ℚ) = true ∧
      gal_statistics_outlier_bydistance (fun d => (medSorted d, madSorted d))
          (([0, 1, 2, 3, 4, 100] : List ℚ).map some) 4 1 = some 4 ∧
      gal_statistics_outlier_bydistance (fun d => (medSorted d, madSorted d))
          (([0, 1, 2, 3, 4, 100] : List ℚ).map some) 2 1 = none := by
  refine ⟨by decide, ?_, ?_⟩
  · have h := (claim9_outlier_bydistance (fun d => (medSorted d, madSorted d))
      [0, 1, 2, 3, 4, 100] 4 1 (by decide)).1 (by norm_num)
    rw [h]
    decide
  · exact (claim9_outlier_bydistance (fun d => (medSorted d, madSorted d))
      [0, 1, 2, 3, 4, 100] 2 1 (by decide)).2 (by norm_num)

/-- Strictly-increasing check (no duplicate values), used to state the
round-trip property on data with no duplicates. -/
def isStrictI {K : Type} [LinearOrder K] : List K → Bool
  | [] => true
  | [_] => true
  | a :: b :: t => decide (a < b) && isStrictI (b :: t)

lemma isStrictI_isSortedI {K : Type} [LinearOrder K] {l : List K}
    (h : isStrictI l = true) : isSortedI l = true := by
  induction l with
  | nil => simp [isSortedI]
  | cons a t ih =>
      cases t with
      | nil => simp [isSortedI]
      | cons b t2 =>
          simp only [isStrictI, Bool.and_eq_true, decide_eq_true_eq] at h
          simp only [isSortedI, Bool.and_eq_true, decide_eq_true_eq]
          exact ⟨le_of_lt h.1, ih h.2⟩

lemma isStrictI_pairwise {K : Type} [LinearOrder K] {l : List K}
    (h : isStrictI l = true) : l.Pairwise (· < ·) := by
  induction l with
  | nil => simp
  | cons a t ih =>
      cases t with
      | nil => simp
      | cons b t2 =>
          simp only [isStrictI, Bool.and_eq_true, decide_eq_true_eq] at h
          have hp := ih h.2
          rw [List.pairwise_cons] at hp ⊢
          refine ⟨?_, ih h.2⟩
          intro x hx
          rcases List.mem_cons.mp hx with rfl | hx2
          · exact h.1
          · exact lt_trans h.1 (hp.1 x hx2)

lemma isSortedClass_eq_one {K : Type} [LinearOrder K] {l : List K}
    (h : isSortedI l = true) : isSortedClass l = 1 := by
  cases l with
  | nil => simp [isSortedClass]
  | cons a t =>
      cases t with
      | nil => simp [isSortedClass]
      | cons b t2 =>
          have hab : a ≤ b := by
            simp only [isSortedI, Bool.and_eq_true, decide_eq_true_eq] at h
            exact h.1
          simp [isSortedClass, hab, h]

lemma qfuncScanInc_append (v : ℚ) (pre : List ℚ) :
    ∀ (prev : ℚ) (idx : ℕ) (rest : List ℚ), (∀ x ∈ pre, ¬ (x > v)) →
      qfuncScanInc v prev (pre ++ rest) idx
        = qfuncScanInc v (pre.getLast?.getD prev) rest (idx + pre.length) := by
  induction pre with
  | nil => intro prev idx rest _; simp
  | cons x ps ih =>
      intro prev idx rest h
      have hx : ¬ (x > v) := h x (by simp)
      show qfuncScanInc v prev (x :: (ps ++ rest)) idx = _
      rw [show qfuncScanInc v prev (x :: (ps ++ rest)) idx
          = if x > v then some (if v - prev < x - v then idx - 1 else idx)
            else qfuncScanInc v x (ps ++ rest) (idx + 1) from rfl]
      rw [if_neg hx, ih x (idx + 1) rest (fun y hy => h y (by simp [hy]))]
      have hlast : (x :: ps).getLast?.getD prev = ps.getLast?.getD x := by
        cases ps with
        | nil => simp
        | cons p ps2 =>
            rw [List.getLast?_cons_cons]
            rw [List.getLast?_eq_getLast (p :: ps2) (by simp)]
            simp
      rw [hlast]
      congr 1
      simp [List.length_cons]
      omega

lemma qfuncScanInc_finds (a : ℚ) (rest : List ℚ) (qi : ℕ) (v : ℚ)
    (hql : qi < rest.length)
    (hv : v = (a :: rest).getD qi 0)
    (hle : ∀ j, j ≤ qi → (a :: rest).getD j 0 ≤ v)
    (hgt : (a :: rest).getD (qi + 1) 0 > v) :
    qfuncScanInc v a rest 1 = some qi := by
  have htake_len : (rest.take qi).length = qi := by rw [List.length_take]; omega
  rw [← List.take_append_drop qi rest]
  rw [qfuncScanInc_append v (rest.take qi) a 1 (rest.drop qi) ?hpre]
  case hpre =>
    intro x hx
    obtain ⟨j, hj, hxj⟩ := List.mem_iff_getElem.mp hx
    have hjq : j < qi := by rw [htake_len] at hj; exact hj
    have hjr : j < rest.length := by omega
    have hxr : x = rest[j] := by rw [← hxj]; exact List.getElem_take _
    have hxg : rest[j] = (a :: rest).getD (j + 1) 0 := by
      rw [List.getD_eq_getElem _ 0 (by simp only [List.length_cons]; omega)]
      simp
    rw [hxr, hxg]
    exact not_lt.mpr (hle (j + 1) (by omega))
  have hlast : (rest.take qi).getLast?.getD a = v := by
    cases qi with
    | zero =>
        simp only [List.take_zero, List.getLast?_nil, Option.getD_none]
        rw [hv]
        simp
    | succ m =>
        rw [List.getLast?_eq_getElem?, htake_len]
        have hb : m < (rest.take (m + 1)).length := by rw [htake_len]; omega
        rw [show m + 1 - 1 = m from rfl, List.getElem?_eq_getElem hb]
        simp only [Option.getD_some]
        rw [List.getElem_take]
        rw [hv, List.getD_eq_getElem _ 0 (by simp only [List.length_cons]; omega)]
        simp
  rw [hlast, htake_len]
  have hdrop : rest.drop qi = rest[qi] :: rest.drop (qi + 1) :=
    List.drop_eq_getElem_cons hql
  rw [hdrop]
  have hhead : rest[qi] = (a :: rest).getD (qi + 1) 0 := by
    rw [List.getD_eq_getElem _ 0 (by simp only [List.length_cons]; omega)]
    simp
  rw [show qfuncScanInc v v (rest[qi] :: rest.drop (qi + 1)) (1 + qi)
      = if rest[qi] > v then some (if v - v < rest[qi] - v then (1 + qi) - 1 else 1 + qi)
        else qfuncScanInc v rest[qi] (rest.drop (qi + 1)) (1 + qi + 1) from rfl]
  rw [if_pos (show rest[qi] > v by rw [hhead]; exact hgt)]
  have hlt2 : v - v < rest[qi] - v := by
    have hvr : v < rest[qi] := by rw [hhead]; exact hgt
    linarith
  rw [if_pos hlt2]
  congr 1
  omega

lemma quantileIndexCore_dist (n : ℕ) (q : ℚ) (hn : 2 ≤ n)
    (hq0 : 0 ≤ q) (hq1 : q ≤ 1) :
    |((quantileIndexCore n q : ℕ) : ℚ) - ((n - 1 : ℕ) : ℚ) * q| ≤ 1/2 := by
  unfold quantileIndexCore
  set fi : ℚ := ((n - 1 : ℕ) : ℚ) * q with hfi
  have hfi0 : 0 ≤ fi := by
    apply mul_nonneg _ hq0
    positivity
  have hfl0 : 0 ≤ ⌊fi⌋ := Int.floor_nonneg.mpr hfi0
  have hfr0 : 0 ≤ fi - (⌊fi⌋ : ℚ) := by
    have := Int.floor_le fi
    linarith
  have hfr1 : fi - (⌊fi⌋ : ℚ) < 1 := by
    have := Int.lt_floor_add_one fi
    linarith
  by_cases hc : fi - (⌊fi⌋ : ℚ) > 1/2
  · rw [if_pos hc]
    have h1 : ⌊fi + 1⌋ = ⌊fi⌋ + 1 := Int.floor_add_one fi
    have h2 : ((⌊fi + 1⌋.toNat : ℕ) : ℚ) = (⌊fi⌋ : ℚ) + 1 := by
      rw [h1]
      have h3 : ((⌊fi⌋ + 1).toNat : ℤ) = ⌊fi⌋ + 1 := Int.toNat_of_nonneg (by omega)
      have h4 : (((⌊fi⌋ + 1).toNat : ℕ) : ℚ) = ((⌊fi⌋ + 1 : ℤ) : ℚ) := by
        exact_mod_cast congrArg (fun z : ℤ => (z : ℚ)) h3
      rw [h4]
      push_cast
      ring
    rw [h2, abs_le]
    constructor <;> linarith
  · rw [if_neg hc]
    have h2 : ((⌊fi⌋.toNat : ℕ) : ℚ) = (⌊fi⌋ : ℚ) := by
      have : (⌊fi⌋.toNat : ℤ) = ⌊fi⌋ := Int.toNat_of_nonneg hfl0
      exact_mod_cast congrArg (fun z : ℤ => (z : ℚ)) this
    rw [h2, abs_le]
    push_neg at hc
    constructor <;> linarith

lemma qfunc_of_sorted_at (a : ℚ) (rest : List ℚ)
    (hsort : isSortedI (a :: rest) = true)
    (hinc : nbsIncreasing ((a :: rest).map some) = true)
    (qi : ℕ) (hqi : qi < rest.length)
    (hle : ∀ j, j ≤ qi → (a :: rest).getD j 0 ≤ (a :: rest).getD qi 0)
    (hgt : (a :: rest).getD (qi + 1) 0 > (a :: rest).getD qi 0) :
    gal_statistics_quantile_function ((a :: rest).map some) ((a :: rest).getD qi 0)
      = some (QfuncVal.val ((qi : ℚ) / (((a :: rest).length - 1 : ℕ) : ℚ))) := by
  have hnbs := no_blank_sorted_map_some (a :: rest) hsort
  have hscan : qfuncScanInc ((a :: rest).getD qi 0) a rest 1 = some qi :=
    qfuncScanInc_finds a rest qi _ hqi rfl hle hgt
  have hvge : (a :: rest).getD qi 0 ≥ a := by
    have h0 := hle 0 (Nat.zero_le qi)
    simpa using h0
  have hqfi : gal_statistics_quantile_function_index ((a :: rest).map some)
      ((a :: rest).getD qi 0) = some qi := by
    unfold gal_statistics_quantile_function_index
    simp only [hnbs]
    rw [hinc]
    simp only [if_true]
    rw [if_pos hvge]
    exact hscan
  unfold gal_statistics_quantile_function
  simp only [hnbs, hqfi]
  rw [if_pos (by simp)]

/-- CLAIM C8 (amended): on a blank-free strictly increasing view of size
`n ≥ 2` with no duplicate values and `q` strictly inside `(0,1)`, provided
the rounded quantile index is not the last position (`index < n-1`; for
the last position the quantile-function scan treats the probe as out of
range and returns `+∞`, see the counterexample), the round trip
`quantile_function(view, quantile(view, q))` is finite, equals
`quantile_index(n,q)/(n-1)`, and differs from `q` by at most
`1/(2*(n-1))`. -/
theorem claim8_amended (l : List ℚ) (q : ℚ)
    (hstrict : isStrictI l = true) (hn : 2 ≤ l.length)
    (hq0 : 0 < q) (hq1 : q < 1)
    (hqi : quantileIndexCore l.length q < l.length - 1) :
    ∃ v, gal_statistics_quantile (l.map some) q = some v ∧
      gal_statistics_quantile_function (l.map some) v
        = some (QfuncVal.val ((quantileIndexCore l.length q : ℚ) /
            ((l.length - 1 : ℕ) : ℚ))) ∧
      |((quantileIndexCore l.length q : ℚ) / ((l.length - 1 : ℕ) : ℚ)) - q|
        ≤ 1 / (2 * ((l.length - 1 : ℕ) : ℚ)) := by
  have hsort := isStrictI_isSortedI hstrict
  have hnbs : gal_statistics_no_blank_sorted (l.map some) = l :=
    no_blank_sorted_map_some l hsort
  have hinc : nbsIncreasing (l.map some) = true := by
    unfold nbsIncreasing
    rw [hnbs]
    simp [isSortedClass_eq_one hsort]
  have hpw := isStrictI_pairwise hstrict
  have hqilt : quantileIndexCore l.length q < l.length := by omega
  have hlget : ∀ {i j : ℕ}, i < j → j < l.length → l.getD i 0 < l.getD j 0 := by
    intro i j hij hj
    have hi : i < l.length := lt_trans hij hj
    rw [List.getD_eq_getElem l 0 hi, List.getD_eq_getElem l 0 hj]
    exact List.pairwise_iff_getElem.mp hpw i j hi hj hij
  have hlget_le : ∀ {i j : ℕ}, i ≤ j → j < l.length → l.getD i 0 ≤ l.getD j 0 := by
    intro i j hij hj
    rcases lt_or_eq_of_le hij with h | h
    · exact le_of_lt (hlget h hj)
    · rw [h]
  have hquant : gal_statistics_quantile (l.map some) q
      = some (l.getD (quantileIndexCore l.length q) 0) := by
    have h0 : ¬ (l.length = 0) := by omega
    unfold gal_statistics_quantile gal_statistics_quantile_index
    rw [hnbs, hinc]
    simp [h0]
  refine ⟨l.getD (quantileIndexCore l.length q) 0, hquant, ?_, ?_⟩
  · -- quantile function of the quantile value
    obtain ⟨a, rest, hlar⟩ : ∃ a rest, l = a :: rest := by
      cases l with
      | nil => simp at hn
      | cons a rest => exact ⟨a, rest, rfl⟩
    rw [hlar]
    apply qfunc_of_sorted_at a rest (hlar ▸ hsort) (hlar ▸ hinc)
    · rw [← hlar]
      have : l.length = rest.length + 1 := by rw [hlar]; simp
      omega
    · intro j hj
      rw [← hlar] at hj ⊢
      exact hlget_le hj hqilt
    · rw [← hlar]
      exact hlget (Nat.lt_succ_self _) (by omega)
  · -- distance bound
    have hd := quantileIndexCore_dist l.length q hn (le_of_lt hq0) (le_of_lt hq1)
    have hpos : (0 : ℚ) < ((l.length - 1 : ℕ) : ℚ) := by
      have h1 : 1 ≤ l.length - 1 := by omega
      exact_mod_cast Nat.lt_of_lt_of_le Nat.zero_lt_one h1
    have heq : ((quantileIndexCore l.length q : ℕ) : ℚ) / ((l.length - 1 : ℕ) : ℚ) - q
        = (((quantileIndexCore l.length q : ℕ) : ℚ) - ((l.length - 1 : ℕ) : ℚ) * q) /
            ((l.length - 1 : ℕ) : ℚ) := by
      symm
      rw [sub_div, mul_div_cancel_left₀ q (ne_of_gt hpos)]
    rw [heq, abs_div, abs_of_pos hpos, div_le_div_iff hpos (by positivity)]
    calc |((quantileIndexCore l.length q : ℕ) : ℚ) - ((l.length - 1 : ℕ) : ℚ) * q| *
          (2 * ((l.length - 1 : ℕ) : ℚ))
        ≤ (1/2) * (2 * ((l.length - 1 : ℕ) : ℚ)) := by
          apply mul_le_mul_of_nonneg_right hd
          positivity
      _ = 1 * ((l.length - 1 : ℕ) : ℚ) := by ring

/-- Witness for C8 (amended): the strictly increasing view `[0,10,20,30]`
with `q = 1/2` selects index 1 (value 10), and the quantile function
recovers `1/3`, within `1/6` of `q`. -/
theorem claim8_witness :
    isStrictI ([0, 10, 20, 30] : List ℚ) = true ∧
      2 ≤ ([0, 10, 20, 30] : List ℚ).length ∧
      (0 : ℚ) < 1/2 ∧ (1/2 : ℚ) < 1 ∧
      quantileIndexCore ([0, 10, 20, 30] : List ℚ).length (1/2)
        < ([0, 10, 20, 30] : List ℚ).length - 1 ∧
      (∃ v, gal_statistics_quantile (([0, 10, 20, 30] : List ℚ).map some) (1/2) = some v ∧
        gal_statistics_quantile_function (([0, 10, 20, 30] : List ℚ).map some) v
          = some (QfuncVal.val
              ((quantileIndexCore ([0, 10, 20, 30] : List ℚ).length (1/2) : ℚ) /
                ((([0, 10, 20, 30] : List ℚ).length - 1 : ℕ) : ℚ))) ∧
        |((quantileIndexCore ([0, 10, 20, 30] : List ℚ).length (1/2) : ℚ) /
            ((([0, 10, 20, 30] : List ℚ).length - 1 : ℕ) : ℚ)) - 1/2|
          ≤ 1 / (2 * ((([0, 10, 20, 30] : List ℚ).length - 1 : ℕ) : ℚ))) :=
  ⟨by decide, by decide, by norm_num, by norm_num, by decide,
    claim8_amended [0, 10, 20, 30] (1/2) (by decide) (by decide) (by norm_num)
      (by norm_num) (by decide)⟩

/-- Constant `MODE_MIN_Q` (mode search lower interval quantile). -/
def modeMinQ : ℚ := 1/100

/-- Constant `MODE_MAX_Q` (mode search higher interval quantile). -/
def modeMaxQ : ℚ := 55/100

/-- Constant `MODE_SYM_LOW_Q` (lower quantile for symmetricity). -/
def modeSymLowQ : ℚ := 1/100

/-- Constant `MODE_GOLDEN_RATIO` (the float literal `1.618034f`). -/
def modeGoldenRat : ℚ := 1618034/1000000

/-- Constant `MODE_TWO_TAKE_GR` (the float literal `0.38197f`). -/
def modeTwoTakeGR : ℚ := 38197/100000

/-- Constant `GAL_STATISTICS_MODE_GOOD_SYM`, the fixed good-symmetry
acceptance threshold.  Modelled from the spec: its value (0.2) lives in
the public header `gnuastro/statistics.h`, which is not under `src/`; the
theorems below only use that it is nonnegative. -/
def modeGoodSym : ℚ := 1/5

/-- Exact model of the C expression `(size_t)(c * sqrt(m))` for `c ≥ 0`:
`⌊c·√m⌋ = ⌊√(c²·m)⌋ = Nat.sqrt ⌊c²·m⌋`. -/
def floorMulSqrt (c : ℚ) (m : ℕ) : ℕ :=
  Nat.sqrt (Int.toNat ⌊c ^ 2 * (m : ℚ)⌋)

/-- The inner `j` scan shared by macros `MIRR_MAX_DIFF` and `MODE_SYM`:
starting from `prevj`, find the first `j` with `a[m+j] > mf` and keep `j`
or `j-1`, whichever is value-closer to `mf`; when the scan exhausts the
range it leaves `j` at the bound.  `fuel` is the remaining iteration
count (`bound - j`). -/
def scanJ (a : List ℚ) (m : ℕ) (mf : ℚ) : ℕ → ℕ → ℕ
  | j, 0 => j
  | j, fuel + 1 =>
      if a.getD (m + j) 0 > mf then
        (if a.getD (m + j) 0 - mf < mf - a.getD (m + j - 1) 0 then j else j - 1)
      else scanJ a m mf (j + 1) fuel

/-- The loop of `mode_mirror_max_index_diff`: mirror indices `i` from 1 in
steps of `interval` while `i < numcheck ∧ i ≤ m ∧ m+i < size`; `⊤` models
the `MODE_MIRROR_ABOVE` sentinel (`(size_t)(-1)`), raised as soon as
`i > j + errordiff`. -/
def mirrMaxDiffGo (a : List ℚ) (numcheck interval m errdiff : ℕ) :
    ℕ → ℕ → ℕ → ℕ → WithTop ℕ
  | _, _, maxdiff, 0 => (maxdiff : WithTop ℕ)
  | i, prevj, maxdiff, fuel + 1 =>
      if i < numcheck ∧ i ≤ m ∧ m + i < a.length then
        let mf := 2 * a.getD m 0 - a.getD (m - i) 0
        let j := scanJ a m mf prevj ((a.length - m) - prevj)
        if i > j + errdiff then ⊤
        else mirrMaxDiffGo a numcheck interval m errdiff (i + interval) j
          (max maxdiff (if i > j then i - j else j - i)) fuel
      else (maxdiff : WithTop ℕ)

/-- Model of `mode_mirror_max_index_diff`. -/
def mode_mirror_max_index_diff (a : List ℚ) (numcheck interval : ℕ)
    (mirrordist : ℚ) (m : ℕ) : WithTop ℕ :=
  mirrMaxDiffGo a numcheck interval m (floorMulSqrt mirrordist m) 1 0 0 numcheck

/-- The parameters of the mode search (`struct statistics_mode_params`
without the mutable interval state). -/
structure ModeParams where
  data : List ℚ
  numcheck : ℕ
  interval : ℕ
  mirrordist : ℚ
  tolerance : ℚ

/-- The mutable interval state of the golden-section search. -/
structure MgsState where
  lowi : ℕ
  midi : ℕ
  highi : ℕ
  midd : WithTop ℕ

/-- Model of `mode_golden_section`.  The C recursion always terminates in
practice because the interval shrinks; the fuel (chosen large by the
caller) models that termination explicitly, returning the interval
midpoint — the same value the C returns at its stopping test — when it
runs out. -/
def mode_golden_section (P : ModeParams) : ℕ → MgsState → ℕ
  | 0, p => (p.highi + p.lowi) / 2
  | fuel + 1, p =>
      let di := if p.highi - p.midi > p.midi - p.lowi
        then Int.toNat ⌊(p.midi : ℚ) + modeTwoTakeGR * ((p.highi : ℚ) - (p.midi : ℚ))⌋
        else Int.toNat ⌊(p.midi : ℚ) - modeTwoTakeGR * ((p.midi : ℚ) - (p.lowi : ℚ))⌋
      if ((p.highi - p.lowi : ℕ) : ℚ) < P.tolerance * ((p.midi + di : ℕ) : ℚ) ∨
          p.highi - p.lowi ≤ 3 then
        (p.highi + p.lowi) / 2
      else
        let dd := mode_mirror_max_index_diff P.data P.numcheck P.interval P.mirrordist di
        if dd = ⊤ then
          (if p.midi < di then mode_golden_section P fuel ⟨p.lowi, p.midi, di, p.midd⟩
           else mode_golden_section P fuel ⟨p.lowi, di, p.midi, dd⟩)
        else if dd < p.midd then
          (if p.highi - p.midi > p.midi - p.lowi then
            mode_golden_section P fuel ⟨p.midi, di, p.highi, dd⟩
           else mode_golden_section P fuel ⟨p.lowi, di, p.midi, dd⟩)
        else
          (if p.highi - p.midi > p.midi - p.lowi then
            mode_golden_section P fuel ⟨p.lowi, p.midi, di, p.midd⟩
           else mode_golden_section P fuel ⟨di, p.midi, p.highi, p.midd⟩)

/-- The `b`-search loop of macro `MODE_SYM`: indices `i` from 1 while
`i < topi - m`; returns `b_i = m + i` at the first index where the
mirrored/actual difference exceeds the error budget in either direction,
and 0 when the loop exhausts (`b_i` not found). -/
def modeSymGo (a : List ℚ) (m errdiff : ℕ) (mf : ℚ) : ℕ → ℕ → ℕ → ℕ
  | _, _, 0 => 0
  | i, prevj, fuel + 1 =>
      let fi := 2 * mf - a.getD (m - i) 0
      let j := scanJ a m fi prevj ((a.length - m) - prevj)
      if i > j + errdiff ∨ j > i + errdiff then m + i
      else modeSymGo a m errdiff mf (i + 1) j fuel

/-- Model of `mode_symmetricity` (macro `MODE_SYM`): returns the pair
(symmetricity, `b_val`).  `mf = a[m]`, `af` is the value at the
1%-quantile index of `[0, 2m]`; when `mf ≤ af` the function returns 0
immediately (the C leaves `b_val` unwritten; we return 0 for it, and the
caller only reads it on acceptance). -/
def mode_symmetricity (a : List ℚ) (mirrordist : ℚ) (m : ℕ) : ℚ × ℚ :=
  let size := a.length
  let topi := if 2 * m > size - 1 then size - 1 else 2 * m
  let errdiff := floorMulSqrt mirrordist m
  let mf := a.getD m 0
  let af := a.getD (quantileIndexCore (2 * m + 1) modeSymLowQ) 0
  if mf ≤ af then (0, 0)
  else
    let bi0 := modeSymGo a m errdiff mf 1 0 ((topi - m) - 1)
    let bi := if bi0 = 0 then topi else bi0
    let bf := a.getD bi 0
    (if bf = af then 0 else (bf - mf) / (mf - af), bf)

/-- The mode index found by `gal_statistics_mode`'s search pipeline:
interval `[quantile_index(size, 0.01), quantile_index(size, 0.55)]`,
first midpoint from the golden ratio, then the golden-section search
(`numcheck = size/2`, `interval` thinning to at most 1000 checks,
`tolerance = 0.01`). -/
def modeIndexOf (a : List ℚ) (mirrordist : ℚ) : ℕ :=
  let size := a.length
  let numcheck := size / 2
  let interval := if numcheck > 1000 then numcheck / 1000 else 1
  let lowi := quantileIndexCore size modeMinQ
  let highi := quantileIndexCore size modeMaxQ
  let midi := Int.toNat ⌊((highi : ℚ) + modeGoldenRat * (lowi : ℚ)) / (1 + modeGoldenRat)⌋
  let midd := mode_mirror_max_index_diff a numcheck interval mirrordist midi
  mode_golden_section ⟨a, numcheck, interval, mirrordist, 1/100⟩ (size + 1000)
    ⟨lowi, midi, highi, midd⟩

/-- Model of `gal_statistics_mode`: the four-element float64 output
(mode value, mode quantile, symmetricity, symmetry-bound value), each
`none` when NaN; `.error` models the abort on a non-positive
`mirrordist`. -/
def gal_statistics_mode (input : List (Option ℚ)) (mirrordist : ℚ) :
    Except String (Option ℚ × Option ℚ × Option ℚ × Option ℚ) :=
  if mirrordist ≤ 0 then .error "mirrordist must be positive"
  else
    let a := gal_statistics_no_blank_sorted input
    if a.length = 0 then .ok (none, none, none, none)
    else
      let modeindex := modeIndexOf a mirrordist
      let sym := (mode_symmetricity a mirrordist modeindex).1
      let bval := (mode_symmetricity a mirrordist modeindex).2
      if sym > modeGoodSym then
        .ok (some (a.getD modeindex 0),
          some ((modeindex : ℚ) / ((a.length - 1 : ℕ) : ℚ)),
          some sym, some bval)
      else .ok (none, none, none, none)

lemma mode_symmetricity_of_le (a : List ℚ) (mirrordist : ℚ) (m : ℕ)
    (h : a.getD m 0 ≤ a.getD (quantileIndexCore (2 * m + 1) modeSymLowQ) 0) :
    (mode_symmetricity a mirrordist m).1 = 0 := by
  have h2 : a[m]?.getD 0 ≤ a[quantileIndexCore (2 * m + 1) modeSymLowQ]?.getD 0 := by
    simpa [List.getD] using h
  simp [mode_symmetricity, h2]

/-- CLAIM C3: for every input and positive `mirrordist`, `mode` returns
without error, and it reports a usable (non-NaN) result only when the
computed symmetry ratio exceeds the fixed good-symmetry threshold; if the
ratio does not exceed the threshold, or the value at the mode index is at
most the value at the low-quantile scale point (`v[m] ≤ af`, which forces
a zero ratio), then all four output fields are NaN. -/
theorem claim3_mode_rejects (input : List (Option ℚ)) (mirrordist : ℚ)
    (h : 0 < mirrordist) :
    ∃ out, gal_statistics_mode input mirrordist = .ok out ∧
      (out ≠ (none, none, none, none) →
        (mode_symmetricity (gal_statistics_no_blank_sorted input) mirrordist
          (modeIndexOf (gal_statistics_no_blank_sorted input) mirrordist)).1
          > modeGoodSym) ∧
      (((mode_symmetricity (gal_statistics_no_blank_sorted input) mirrordist
            (modeIndexOf (gal_statistics_no_blank_sorted input) mirrordist)).1
          ≤ modeGoodSym ∨
        (gal_statistics_no_blank_sorted input).getD
            (modeIndexOf (gal_statistics_no_blank_sorted input) mirrordist) 0
          ≤ (gal_statistics_no_blank_sorted input).getD
              (quantileIndexCore
                (2 * modeIndexOf (gal_statistics_no_blank_sorted input) mirrordist + 1)
                modeSymLowQ) 0) →
        out = (none, none, none, none)) := by
  have hnle : ¬ (mirrordist ≤ 0) := not_le.mpr h
  unfold gal_statistics_mode
  rw [if_neg hnle]
  by_cases h0 : (gal_statistics_no_blank_sorted input : List ℚ).length = 0
  · rw [if_pos h0]
    exact ⟨(none, none, none, none), rfl, fun hne => absurd rfl hne, fun _ => rfl⟩
  · rw [if_neg h0]
    by_cases hsym : (mode_symmetricity (gal_statistics_no_blank_sorted input) mirrordist
        (modeIndexOf (gal_statistics_no_blank_sorted input) mirrordist)).1 > modeGoodSym
    · refine ⟨_, by rw [if_pos hsym], fun _ => hsym, fun hc => ?_⟩
      exfalso
      rcases hc with hc | hc
      · exact absurd hsym (not_lt.mpr hc)
      · have h0sym := mode_symmetricity_of_le (gal_statistics_no_blank_sorted input)
          mirrordist (modeIndexOf (gal_statistics_no_blank_sorted input) mirrordist) hc
        rw [h0sym] at hsym
        exact absurd hsym (by norm_num [modeGoodSym])
    · refine ⟨(none, none, none, none), by rw [if_neg hsym], ?_, fun _ => rfl⟩
      intro hne
      exact absurd rfl hne

/-- Witness for C3: the one-element input `[1]` with `mirrordist = 1`; the
mode index is 0, `v[0] ≤ af` holds (they coincide), so the run returns
`ok` with all four fields NaN. -/
theorem claim3_witness :
    (0 : ℚ) < 1 ∧
      (∃ out, gal_statistics_mode [some (1 : ℚ)] 1 = .ok out ∧
        (out ≠ (none, none, none, none) →
          (mode_symmetricity (gal_statistics_no_blank_sorted [some (1 : ℚ)]) 1
            (modeIndexOf (gal_statistics_no_blank_sorted [some (1 : ℚ)]) 1)).1
            > modeGoodSym) ∧
        (((mode_symmetricity (gal_statistics_no_blank_sorted [some (1 : ℚ)]) 1
              (modeIndexOf (gal_statistics_no_blank_sorted [some (1 : ℚ)]) 1)).1
            ≤ modeGoodSym ∨
          (gal_statistics_no_blank_sorted [some (1 : ℚ)]).getD
              (modeIndexOf (gal_statistics_no_blank_sorted [some (1 : ℚ)]) 1) 0
            ≤ (gal_statistics_no_blank_sorted [some (1 : ℚ)]).getD
                (quantileIndexCore
                  (2 * modeIndexOf (gal_statistics_no_blank_sorted [some (1 : ℚ)]) 1 + 1)
                  modeSymLowQ) 0) →
          out = (none, none, none, none))) :=
  ⟨by norm_num, claim3_mode_rejects [some 1] 1 (by norm_num)⟩

end GnuastroStats
